import Mathlib

set_option maxHeartbeats 1000000
set_option maxRecDepth 10000

/-!
Verification of the FileHarbor file-transfer service.

Python strings are modelled as `List Char`, byte strings as `List Nat`
(each element `< 256`).  Fallible Python code (raising exceptions)
is modelled with `Except`/`Option`.  The POSIX path functions
(`os.path.normpath`, `os.path.join`, `os.path.abspath`) are embedded
following CPython's `posixpath` implementation with `os.sep = '/'`;
`os.path.abspath` takes the current working directory as an explicit
parameter (CPython reads it from `os.getcwd()`, which always returns
an absolute path).
-/

namespace FileHarbor

/-- Prepend a character to the first component of a split result. -/
def consHead (c : Char) : List (List Char) → List (List Char)
  | [] => [[c]]
  | s :: ss => (c :: s) :: ss

/-- Python `s.split('/')` on a character list (single-character separator). -/
def splitSlash : List Char → List (List Char)
  | [] => [[]]
  | c :: rest => if c = '/' then [] :: splitSlash rest else consHead c (splitSlash rest)

/-- Python `'/'.join(comps)` on character lists. -/
def joinSlash : List (List Char) → List Char
  | [] => []
  | [s] => s
  | s :: ss => s ++ '/' :: joinSlash ss

theorem consHead_ne_nil (c : Char) (xs : List (List Char)) : consHead c xs ≠ [] := by
  cases xs <;> simp [consHead]

theorem consHead_append (c : Char) (xs ys : List (List Char)) (h : xs ≠ []) :
    consHead c (xs ++ ys) = consHead c xs ++ ys := by
  cases xs with
  | nil => exact absurd rfl h
  | cons s ss => simp [consHead]

theorem splitSlash_ne_nil (l : List Char) : splitSlash l ≠ [] := by
  cases l with
  | nil => simp [splitSlash]
  | cons c rest =>
    simp only [splitSlash]
    split
    · simp
    · exact consHead_ne_nil c _

theorem splitSlash_append_slash (a b : List Char) :
    splitSlash (a ++ '/' :: b) = splitSlash a ++ splitSlash b := by
  induction a with
  | nil => simp [splitSlash]
  | cons c a ih =>
    simp only [List.cons_append, splitSlash]
    by_cases hc : c = '/'
    · simp [hc, ih]
    · simp [hc, ih, consHead_append c _ _ (splitSlash_ne_nil a)]

/-- Components produced by `splitSlash` never contain `'/'`. -/
theorem splitSlash_no_slash (l : List Char) :
    ∀ s ∈ splitSlash l, '/' ∉ s := by
  induction l with
  | nil => intro s hs; simp [splitSlash] at hs; simp [hs]
  | cons c rest ih =>
    intro s hs
    simp only [splitSlash] at hs
    by_cases hc : c = '/'
    · simp [hc] at hs
      rcases hs with hs | hs
      · simp [hs]
      · exact ih s hs
    · rw [if_neg hc] at hs
      cases h : splitSlash rest with
      | nil => exact absurd h (splitSlash_ne_nil rest)
      | cons t ts =>
        rw [h] at hs
        simp [consHead] at hs
        rcases hs with hs | hs
        · subst hs
          intro hmem
          rcases List.mem_cons.mp hmem with h1 | h1
          · exact hc h1.symm
          · exact ih t (by simp [h]) h1
        · exact ih s (by simp [h, hs])

/-- `splitSlash` of a slash-free string is the singleton. -/
theorem splitSlash_of_no_slash (l : List Char) (h : '/' ∉ l) :
    splitSlash l = [l] := by
  induction l with
  | nil => simp [splitSlash]
  | cons c rest ih =>
    have hc : c ≠ '/' := fun hc => h (by simp [hc])
    have hrest : '/' ∉ rest := fun hr => h (by simp [hr])
    simp [splitSlash, hc, ih hrest, consHead]

theorem joinSlash_cons_cons (s t : List Char) (ss : List (List Char)) :
    joinSlash (s :: t :: ss) = s ++ '/' :: joinSlash (t :: ss) := rfl

/-- `splitSlash` is a left inverse of `joinSlash` on slash-free components. -/
theorem splitSlash_joinSlash (cs : List (List Char)) (hne : cs ≠ [])
    (h : ∀ s ∈ cs, '/' ∉ s) :
    splitSlash (joinSlash cs) = cs := by
  induction cs with
  | nil => exact absurd rfl hne
  | cons s ss ih =>
    cases ss with
    | nil => simpa [joinSlash] using splitSlash_of_no_slash s (h s (by simp))
    | cons t ts =>
      rw [joinSlash_cons_cons, splitSlash_append_slash,
        splitSlash_of_no_slash s (h s (by simp)),
        ih (by simp) (fun x hx => h x (by simp [hx]))]
      simp

theorem joinSlash_append (a b : List (List Char)) (ha : a ≠ []) (hb : b ≠ []) :
    joinSlash (a ++ b) = joinSlash a ++ '/' :: joinSlash b := by
  induction a with
  | nil => exact absurd rfl ha
  | cons s ss ih =>
    cases ss with
    | nil =>
      cases b with
      | nil => exact absurd rfl hb
      | cons t ts => simp [joinSlash_cons_cons, joinSlash]
    | cons t ts =>
      have h1 : (s :: t :: ts) ++ b = s :: t :: (ts ++ b) := by simp
      rw [h1, joinSlash_cons_cons]
      have h2 : t :: (ts ++ b) = (t :: ts) ++ b := by simp
      rw [h2, ih (by simp), joinSlash_cons_cons]
      simp

/-- One step of CPython `posixpath.normpath`'s component loop.  The
accumulator is the `new_comps` stack, most recent element first
(Python appends to and pops from the end of `new_comps`). -/
def normStep (slashes : Nat) (acc : List (List Char)) (comp : List Char) : List (List Char) :=
  if comp = [] ∨ comp = ['.'] then acc
  else if comp ≠ ['.', '.'] ∨ (slashes = 0 ∧ acc = []) ∨ acc.head? = some ['.', '.'] then
    comp :: acc
  else acc.tail

/-- The number of leading slashes `posixpath.normpath` keeps (POSIX gives
exactly two leading slashes a special meaning; three or more become one). -/
def leadingSlashes (p : List Char) : Nat :=
  if p.head? = some '/' then
    if p.take 2 = ['/', '/'] ∧ p.take 3 ≠ ['/', '/', '/'] then 2 else 1
  else 0

/-- CPython `posixpath.normpath`. -/
def normpath (p : List Char) : List Char :=
  if p = [] then ['.']
  else
    let k := leadingSlashes p
    let nc := ((splitSlash p).foldl (normStep k) []).reverse
    let out := List.replicate k '/' ++ joinSlash nc
    if out = [] then ['.'] else out

/-- CPython `posixpath.isabs`. -/
def isAbs (p : List Char) : Prop :=
  p.head? = some '/'

instance (p : List Char) : Decidable (isAbs p) := by
  unfold isAbs; infer_instance

/-- CPython `posixpath.join` restricted to two arguments. -/
def pyJoin (a b : List Char) : List Char :=
  if b.head? = some '/' then b
  else if a = [] ∨ a.getLast? = some '/' then a ++ b
  else a ++ '/' :: b

/-- CPython `posixpath.abspath`, with the current working directory passed
explicitly (the code reads it from `os.getcwd()`). -/
def abspath (cwd p : List Char) : List Char :=
  if isAbs p then normpath p else normpath (pyJoin cwd p)

/-- A plain path component: nonempty, slash-free, neither `.` nor `..`. -/
def goodComp (s : List Char) : Prop :=
  s ≠ [] ∧ s ≠ ['.'] ∧ s ≠ ['.', '.'] ∧ '/' ∉ s

/-- Elements surviving the `normpath` component loop come from the
accumulator or from the input components. -/
theorem normStep_foldl_mem (k : Nat) (comps : List (List Char)) :
    ∀ acc x, x ∈ comps.foldl (normStep k) acc → x ∈ acc ∨ x ∈ comps := by
  induction comps with
  | nil => intro acc x hx; exact Or.inl hx
  | cons c cs ih =>
    intro acc x hx
    rcases ih (normStep k acc c) x hx with h | h
    · unfold normStep at h
      split at h
      · exact Or.inl h
      · split at h
        · rcases List.mem_cons.mp h with h | h
          · exact Or.inr (by simp [h])
          · exact Or.inl h
        · exact Or.inl (List.mem_of_mem_tail h)
    · exact Or.inr (by simp [h])

/-- The `normpath` component loop never stacks an empty or `.` component. -/
theorem normStep_foldl_ne_empty_dot (k : Nat) (comps : List (List Char)) :
    ∀ acc, (∀ x ∈ acc, x ≠ [] ∧ x ≠ ['.']) →
      ∀ x ∈ comps.foldl (normStep k) acc, x ≠ [] ∧ x ≠ ['.'] := by
  induction comps with
  | nil => intro acc hacc x hx; exact hacc x hx
  | cons c cs ih =>
    intro acc hacc x hx
    refine ih (normStep k acc c) ?_ x hx
    intro y hy
    unfold normStep at hy
    split at hy
    · exact hacc y hy
    · next hcomp =>
      split at hy
      · rcases List.mem_cons.mp hy with h | h
        · subst h
          push_neg at hcomp
          exact hcomp
        · exact hacc y h
      · exact hacc y (List.mem_of_mem_tail hy)

/-- With at least one leading slash, the `normpath` component loop never
stacks a `..` component. -/
theorem normStep_foldl_no_dotdot (k : Nat) (hk : k ≠ 0) (comps : List (List Char)) :
    ∀ acc, (∀ x ∈ acc, x ≠ ['.', '.']) →
      ∀ x ∈ comps.foldl (normStep k) acc, x ≠ ['.', '.'] := by
  induction comps with
  | nil => intro acc hacc x hx; exact hacc x hx
  | cons c cs ih =>
    intro acc hacc x hx
    refine ih (normStep k acc c) ?_ x hx
    intro y hy
    unfold normStep at hy
    split at hy
    · exact hacc y hy
    · split at hy
      · next hcond =>
        rcases List.mem_cons.mp hy with h | h
        · subst h
          rcases hcond with h1 | h1 | h1
          · exact h1
          · exact absurd h1.1 hk
          · intro _
            cases acc with
            | nil => simp at h1
            | cons a as =>
              simp only [List.head?_cons, Option.some.injEq] at h1
              exact hacc a (by simp) h1
        · exact hacc y h
      · exact hacc y (List.mem_of_mem_tail hy)

/-- Plain components pass through the `normpath` component loop unchanged. -/
theorem normStep_foldl_fixed (k : Nat) (comps : List (List Char))
    (h : ∀ x ∈ comps, goodComp x) :
    ∀ acc, comps.foldl (normStep k) acc = comps.reverse ++ acc := by
  induction comps with
  | nil => intro acc; simp
  | cons c cs ih =>
    intro acc
    have hc : goodComp c := h c (by simp)
    have hstep : normStep k acc c = c :: acc := by
      unfold normStep
      rw [if_neg (by push_neg; exact ⟨hc.1, hc.2.1⟩), if_pos (Or.inl hc.2.2.1)]
    rw [List.foldl_cons, hstep, ih (fun x hx => h x (by simp [hx])) (c :: acc)]
    simp

/-- Empty components are skipped by the `normpath` component loop. -/
theorem normStep_foldl_empties (k n : Nat) (comps : List (List Char)) (acc : List (List Char)) :
    (List.replicate n [] ++ comps).foldl (normStep k) acc = comps.foldl (normStep k) acc := by
  induction n with
  | zero => simp
  | succ m ih =>
    rw [List.replicate_succ, List.cons_append, List.foldl_cons]
    have : normStep k acc [] = acc := by unfold normStep; simp
    rw [this, ih]

theorem joinSlash_ne_nil (cs : List (List Char)) (hne : cs ≠ [])
    (h : ∀ c ∈ cs, goodComp c) : joinSlash cs ≠ [] := by
  cases cs with
  | nil => exact absurd rfl hne
  | cons c cs' =>
    cases cs' with
    | nil => simpa [joinSlash] using (h c (by simp)).1
    | cons d ds =>
      rw [joinSlash_cons_cons]
      intro hcontra
      rcases List.append_eq_nil.mp hcontra with ⟨_, h2⟩
      exact List.cons_ne_nil _ _ h2

theorem joinSlash_head (cs : List (List Char)) (hne : cs ≠ [])
    (h : ∀ c ∈ cs, goodComp c) :
    ∃ ch, (joinSlash cs).head? = some ch ∧ ch ≠ '/' := by
  cases cs with
  | nil => exact absurd rfl hne
  | cons c cs' =>
    have hc : goodComp c := h c (by simp)
    obtain ⟨a, t, rfl⟩ : ∃ a t, c = a :: t := by
      cases c with
      | nil => exact absurd rfl hc.1
      | cons a t => exact ⟨a, t, rfl⟩
    have ha : a ≠ '/' := fun hco => hc.2.2.2 (by simp [hco])
    cases cs' with
    | nil => exact ⟨a, by simp [joinSlash], ha⟩
    | cons d ds => exact ⟨a, by rw [joinSlash_cons_cons]; simp, ha⟩

theorem joinSlash_getLast (cs : List (List Char)) (hne : cs ≠ [])
    (h : ∀ c ∈ cs, goodComp c) :
    ∃ ch, (joinSlash cs).getLast? = some ch ∧ ch ≠ '/' := by
  induction cs with
  | nil => exact absurd rfl hne
  | cons c cs' ih =>
    cases cs' with
    | nil =>
      have hc : goodComp c := h c (by simp)
      refine ⟨c.getLast hc.1, ?_, ?_⟩
      · simp [joinSlash, List.getLast?_eq_getLast c hc.1]
      · intro hco
        exact hc.2.2.2 (hco ▸ List.getLast_mem hc.1)
    | cons d ds =>
      obtain ⟨ch, hch, hne'⟩ := ih (by simp) (fun x hx => h x (by simp [hx]))
      refine ⟨ch, ?_, hne'⟩
      rw [joinSlash_cons_cons]
      have hsplit : c ++ '/' :: joinSlash (d :: ds) = (c ++ ['/']) ++ joinSlash (d :: ds) := by
        simp
      rw [hsplit, List.getLast?_append, hch]
      rfl

theorem leadingSlashes_replicate (k : Nat) (hk : k = 1 ∨ k = 2) (rest : List Char)
    (hrest : rest.head? ≠ some '/') :
    leadingSlashes (List.replicate k '/' ++ rest) = k := by
  rcases hk with rfl | rfl
  · cases rest with
    | nil => simp [leadingSlashes]
    | cons r rs =>
      have hr : r ≠ '/' := by simpa using hrest
      simp [leadingSlashes, List.replicate, hr]
  · cases rest with
    | nil => simp [leadingSlashes, List.replicate]
    | cons r rs =>
      have hr : r ≠ '/' := by simpa using hrest
      simp [leadingSlashes, List.replicate, hr]

theorem splitSlash_replicate_slash (n : Nat) (rest : List Char) :
    splitSlash (List.replicate n '/' ++ rest) = List.replicate n [] ++ splitSlash rest := by
  induction n with
  | zero => simp
  | succ m ih => simp [List.replicate_succ, splitSlash, ih]

/-- Strings of the form `'/' * k ++ joinSlash ds` with `ds` plain are fixed
points of `normpath`. -/
theorem normpath_normal (k : Nat) (hk : k = 1 ∨ k = 2) (ds : List (List Char))
    (hds : ∀ d ∈ ds, goodComp d) :
    normpath (List.replicate k '/' ++ joinSlash ds) = List.replicate k '/' ++ joinSlash ds := by
  have hk1 : k ≠ 0 := by rcases hk with rfl | rfl <;> simp
  have hrep : List.replicate k '/' ≠ ([] : List Char) := by
    simpa [List.replicate_eq_nil] using hk1
  have hpne : List.replicate k '/' ++ joinSlash ds ≠ [] := by
    intro hco
    exact hrep (List.append_eq_nil.mp hco).1
  have hhead : (joinSlash ds).head? ≠ some '/' := by
    cases ds with
    | nil => simp [joinSlash]
    | cons c cs =>
      obtain ⟨ch, hch, hne⟩ := joinSlash_head (c :: cs) (by simp) hds
      rw [hch]
      simpa using hne
  have hlead : leadingSlashes (List.replicate k '/' ++ joinSlash ds) = k :=
    leadingSlashes_replicate k hk _ hhead
  rw [normpath, if_neg hpne]
  simp only [hlead, splitSlash_replicate_slash, normStep_foldl_empties]
  cases ds with
  | nil => simp [joinSlash, splitSlash, normStep, hrep]
  | cons c cs =>
    rw [splitSlash_joinSlash (c :: cs) (by simp)
      (fun x hx => (hds x hx).2.2.2)]
    rw [normStep_foldl_fixed k (c :: cs) hds []]
    simp only [List.append_nil, List.reverse_reverse]
    rw [if_neg hpne]

/-- `normpath` of an absolute path yields `'/' * k` (`k ∈ {1,2}`) followed by
plain slash-separated components. -/
theorem normpath_abs_form (p : List Char) (h : isAbs p) :
    ∃ k bs, (k = 1 ∨ k = 2) ∧ (∀ b ∈ bs, goodComp b) ∧
      normpath p = List.replicate k '/' ++ joinSlash bs := by
  have hpne : p ≠ [] := by
    intro hco; rw [hco] at h; simp [isAbs] at h
  set k := leadingSlashes p with hkdef
  have hhd : p.head? = some '/' := h
  have hk : k = 1 ∨ k = 2 := by
    rw [hkdef]
    unfold leadingSlashes
    rw [if_pos hhd]
    split
    · exact Or.inr rfl
    · exact Or.inl rfl
  have hk1 : k ≠ 0 := by rcases hk with h1 | h1 <;> simp [h1]
  set nc := ((splitSlash p).foldl (normStep k) []).reverse with hncdef
  have hgood : ∀ b ∈ nc, goodComp b := by
    intro b hb
    rw [hncdef, List.mem_reverse] at hb
    have h1 := normStep_foldl_ne_empty_dot k (splitSlash p) [] (by simp) b hb
    have h2 := normStep_foldl_no_dotdot k hk1 (splitSlash p) [] (by simp) b hb
    have h3 : b ∈ ([] : List (List Char)) ∨ b ∈ splitSlash p :=
      normStep_foldl_mem k (splitSlash p) [] b hb
    have h4 : '/' ∉ b := by
      rcases h3 with h3 | h3
      · simp at h3
      · exact splitSlash_no_slash p b h3
    exact ⟨h1.1, h1.2, h2, h4⟩
  have hout : List.replicate k '/' ++ joinSlash nc ≠ [] := by
    intro hco
    exact (by simpa [List.replicate_eq_nil] using (List.append_eq_nil.mp hco).1 : k = 0) |> hk1
  refine ⟨k, nc, hk, hgood, ?_⟩
  rw [normpath, if_neg hpne]
  simp only [← hkdef, ← hncdef]
  rw [if_neg hout]

/-- `normpath` of a relative path is `.` or slash-separated components that
are nonempty, slash-free and not `.` (leading `..` components possible). -/
theorem normpath_rel_form (p : List Char) (h : ¬ isAbs p) :
    normpath p = ['.'] ∨ ∃ cs, cs ≠ [] ∧
      (∀ c ∈ cs, c ≠ [] ∧ c ≠ ['.'] ∧ '/' ∉ c) ∧ normpath p = joinSlash cs := by
  by_cases hpne : p = []
  · subst hpne; left; simp [normpath]
  have hk : leadingSlashes p = 0 := by
    unfold leadingSlashes
    rw [if_neg (by simpa [isAbs] using h)]
  set nc := ((splitSlash p).foldl (normStep 0) []).reverse with hncdef
  by_cases hnc : nc = []
  · left
    rw [normpath, if_neg hpne]
    simp only [hk, ← hncdef, hnc]
    simp [joinSlash]
  · right
    have hgood : ∀ b ∈ nc, b ≠ [] ∧ b ≠ ['.'] ∧ '/' ∉ b := by
      intro b hb
      rw [hncdef, List.mem_reverse] at hb
      have h1 := normStep_foldl_ne_empty_dot 0 (splitSlash p) [] (by simp) b hb
      have h3 : b ∈ ([] : List (List Char)) ∨ b ∈ splitSlash p :=
        normStep_foldl_mem 0 (splitSlash p) [] b hb
      have h4 : '/' ∉ b := by
        rcases h3 with h3 | h3
        · simp at h3
        · exact splitSlash_no_slash p b h3
      exact ⟨h1.1, h1.2, h4⟩
    have hjne : joinSlash nc ≠ [] := by
      obtain ⟨c, cs, hcc⟩ := List.exists_cons_of_ne_nil hnc
      rw [hcc]
      cases cs with
      | nil => simpa [joinSlash] using (hgood c (by simp [hcc])).1
      | cons d ds =>
        rw [joinSlash_cons_cons]
        intro hco
        exact List.cons_ne_nil _ _ (List.append_eq_nil.mp hco).2
    refine ⟨nc, hnc, hgood, ?_⟩
    rw [normpath, if_neg hpne]
    simp only [hk, ← hncdef]
    have hout : List.replicate 0 '/' ++ joinSlash nc = joinSlash nc := by simp
    rw [hout, if_neg hjne]

theorem pyJoin_abs (a b : List Char) (h : isAbs a) : isAbs (pyJoin a b) := by
  unfold pyJoin
  split
  · next hb => exact hb
  · have hane : a ≠ [] := by
      intro hco; rw [hco] at h; simp [isAbs] at h
    obtain ⟨c, t, rfl⟩ := List.exists_cons_of_ne_nil hane
    have hc : c = '/' := by simpa [isAbs] using h
    split <;> simp [isAbs, hc]

/-- `os.path.abspath` of anything is `'/' * k` followed by plain components
whenever the working directory is absolute. -/
theorem abspath_form (cwd p : List Char) (h : isAbs cwd) :
    ∃ k bs, (k = 1 ∨ k = 2) ∧ (∀ b ∈ bs, goodComp b) ∧
      abspath cwd p = List.replicate k '/' ++ joinSlash bs := by
  unfold abspath
  split
  · next hp => exact normpath_abs_form p hp
  · exact normpath_abs_form _ (pyJoin_abs cwd p h)

/-- `FORBIDDEN_PATH_COMPONENTS` from `fileharbor/common/constants.py`. -/
def FORBIDDEN_PATH_COMPONENTS : List (List Char) := [['.', '.'], ['.']]

/-- `FORBIDDEN_FILENAME_CHARS` from `fileharbor/common/constants.py`
(NUL, forward slash, backslash). -/
def FORBIDDEN_FILENAME_CHARS : List Char := [Char.ofNat 0, '/', '\\']

/-- `MAX_PATH_DEPTH` from `fileharbor/common/constants.py`. -/
def MAX_PATH_DEPTH : Nat := 100

/-- `MAX_PATH_LENGTH` from `fileharbor/common/constants.py`. -/
def MAX_PATH_LENGTH : Nat := 4096

/-- The two exceptions `validate_path` can raise. -/
inductive PathErr where
  | pathTraversal
  | invalidPath
deriving DecidableEq, Repr

/-- The per-component loop of `validate_path`: forbidden components raise
`PathTraversalError`, forbidden characters raise `InvalidPathError`. -/
def checkParts : List (List Char) → Except PathErr Unit
  | [] => .ok ()
  | part :: rest =>
    if part ∈ FORBIDDEN_PATH_COMPONENTS then .error .pathTraversal
    else if FORBIDDEN_FILENAME_CHARS.any (fun ch => decide (ch ∈ part)) then
      .error .invalidPath
    else checkParts rest

/-- `validate_path` from `fileharbor/common/validators.py`.  `cwd` is the
process working directory consumed by `os.path.abspath`; the
`os.path.commonpath` call can only raise `ValueError` (mapped to
`PathTraversalError` by the source) when one path is absolute and the
other relative. -/
def validate_path (filepath base_path cwd : List Char) : Except PathErr (List Char) :=
  let base := abspath cwd (normpath base_path)
  let f1 := filepath.dropWhile (fun c => decide (c = '/'))
  let f2 := normpath f1
  let parts := splitSlash f2
  match checkParts parts with
  | .error e => .error e
  | .ok _ =>
    if parts.length > MAX_PATH_DEPTH then .error .invalidPath
    else
      let full := abspath cwd (pyJoin base f2)
      if ¬ (isAbs base ↔ isAbs full) then .error .pathTraversal
      else if ¬ (base <+: full) then .error .pathTraversal
      else if full.length > MAX_PATH_LENGTH then .error .invalidPath
      else .ok full

theorem checkParts_ok (parts : List (List Char)) (h : checkParts parts = .ok ()) :
    ∀ part ∈ parts, part ∉ FORBIDDEN_PATH_COMPONENTS ∧
      ∀ ch ∈ FORBIDDEN_FILENAME_CHARS, ch ∉ part := by
  induction parts with
  | nil => simp
  | cons part rest ih =>
    unfold checkParts at h
    split at h
    · cases h
    · split at h
      · cases h
      · next h1 h2 =>
        intro x hx
        rcases List.mem_cons.mp hx with rfl | hx
        · refine ⟨h1, ?_⟩
          intro ch hch hmem
          exact h2 (by simpa using ⟨ch, hch, hmem⟩)
        · exact ih h x hx

theorem dropWhile_slash_not_abs (l : List Char) :
    ¬ isAbs (l.dropWhile (fun c => decide (c = '/'))) := by
  induction l with
  | nil => simp [isAbs]
  | cons c t ih =>
    by_cases hc : c = '/'
    · simpa [List.dropWhile_cons, hc] using ih
    · simp [List.dropWhile_cons, hc, isAbs]

/-- The nonempty slash-separated components of a path. -/
def pathComps (q : List Char) : List (List Char) :=
  (splitSlash q).filter (fun s => decide (s ≠ []))

theorem getLast?_replicate_slash (k : Nat) (hk : k ≠ 0) :
    (List.replicate k '/').getLast? = some '/' := by
  induction k with
  | zero => exact absurd rfl hk
  | succ m ih =>
    cases m with
    | zero => rfl
    | succ m' =>
      rw [List.replicate_succ, List.getLast?_cons, ih (by simp)]
      simp

theorem isAbs_replicate_append (k : Nat) (hk : k ≠ 0) (x : List Char) :
    isAbs (List.replicate k '/' ++ x) := by
  cases k with
  | zero => exact absurd rfl hk
  | succ m => simp [List.replicate_succ, isAbs]

theorem filter_replicate_nil (n : Nat) :
    (List.replicate n ([] : List Char)).filter (fun s => decide (s ≠ [])) = [] := by
  induction n with
  | zero => rfl
  | succ m ih => simp [List.replicate_succ, ih]

/-- Whenever `validate_path` succeeds, the result is exactly the canonical
base followed by the validated plain relative components. -/
theorem validate_path_ok_form (p R cwd : List Char) (hcwd : isAbs cwd)
    (q : List Char) (h : validate_path p R cwd = .ok q) :
    ∃ k bs cs, (k = 1 ∨ k = 2) ∧ (∀ b ∈ bs, goodComp b) ∧ cs ≠ [] ∧
      (∀ c ∈ cs, goodComp c) ∧
      abspath cwd (normpath R) = List.replicate k '/' ++ joinSlash bs ∧
      q = List.replicate k '/' ++ joinSlash (bs ++ cs) := by
  obtain ⟨k, bs, hk, hbs, hbase⟩ := abspath_form cwd (normpath R) hcwd
  have hk0 : k ≠ 0 := by rcases hk with rfl | rfl <;> simp
  simp only [validate_path] at h
  rcases hcp : checkParts (splitSlash (normpath (p.dropWhile fun c => decide (c = '/'))))
    with _ | u
  · rw [hcp] at h; simp at h
  rw [hcp] at h
  rcases normpath_rel_form (p.dropWhile fun c => decide (c = '/'))
    (dropWhile_slash_not_abs p) with hdot | ⟨cs, hcsne, hcs0, heq⟩
  · rw [hdot] at hcp
    have : splitSlash ['.'] = [['.']] := rfl
    rw [this] at hcp
    have : checkParts [['.']] = .error .pathTraversal := rfl
    rw [this] at hcp
    cases hcp
  · rw [heq] at h hcp
    rw [splitSlash_joinSlash cs hcsne (fun x hx => (hcs0 x hx).2.2)] at h hcp
    have hparts := checkParts_ok cs hcp
    have hcs : ∀ c ∈ cs, goodComp c := by
      intro c hc
      obtain ⟨hforb, _⟩ := hparts c hc
      have h1 := hcs0 c hc
      refine ⟨h1.1, ?_, ?_, h1.2.2⟩
      · intro hco; exact hforb (by simp [FORBIDDEN_PATH_COMPONENTS, hco])
      · intro hco; exact hforb (by simp [FORBIDDEN_PATH_COMPONENTS, hco])
    -- the joined path and its normalization
    have hjoin : pyJoin (abspath cwd (normpath R)) (joinSlash cs)
        = List.replicate k '/' ++ joinSlash (bs ++ cs) := by
      obtain ⟨ch, hch, hchne⟩ := joinSlash_head cs hcsne hcs
      have hcond1 : ¬ ((joinSlash cs).head? = some '/') := by
        rw [hch]; simpa using hchne
      rw [hbase]
      cases bs with
      | nil =>
        have hlast : (List.replicate k '/' ++ joinSlash ([] : List (List Char))).getLast?
            = some '/' := by
          simp [joinSlash, getLast?_replicate_slash k hk0]
        unfold pyJoin
        rw [if_neg hcond1, if_pos (Or.inr hlast)]
        simp [joinSlash]
      | cons b bs' =>
        obtain ⟨lch, hlch, hlchne⟩ := joinSlash_getLast (b :: bs') (by simp) hbs
        have hjbne : joinSlash (b :: bs') ≠ [] := joinSlash_ne_nil _ (by simp) hbs
        have hlast : (List.replicate k '/' ++ joinSlash (b :: bs')).getLast? = some lch := by
          rw [List.getLast?_append, hlch]; rfl
        have hne2 : List.replicate k '/' ++ joinSlash (b :: bs') ≠ [] := by
          intro hco
          exact hk0 (by simpa [List.replicate_eq_nil_iff] using (List.append_eq_nil.mp hco).1)
        unfold pyJoin
        rw [if_neg hcond1, if_neg (by
          push_neg
          refine ⟨hne2, ?_⟩
          rw [hlast]
          simpa using hlchne)]
        rw [List.append_assoc, ← joinSlash_append (b :: bs') cs (by simp) hcsne]
    have habs2 : isAbs (List.replicate k '/' ++ joinSlash (bs ++ cs)) :=
      isAbs_replicate_append k hk0 _
    have hgoodall : ∀ x ∈ bs ++ cs, goodComp x := by
      intro x hx
      rcases List.mem_append.mp hx with hx | hx
      · exact hbs x hx
      · exact hcs x hx
    have hfull : abspath cwd (pyJoin (abspath cwd (normpath R)) (joinSlash cs))
        = List.replicate k '/' ++ joinSlash (bs ++ cs) := by
      rw [hjoin]
      unfold abspath
      rw [if_pos habs2]
      exact normpath_normal k hk (bs ++ cs) hgoodall
    rw [hfull] at h
    split at h
    · simp at h
    · split at h
      · simp at h
      · split at h
        · simp at h
        · split at h
          · simp at h
          · split at h
            · simp at h
            · simp only [Except.ok.injEq] at h
              exact ⟨k, bs, cs, hk, hbs, hcsne, hcs, hbase, h.symm⟩

theorem pathComps_normal (k : Nat) (ds : List (List Char)) (hds : ∀ d ∈ ds, goodComp d) :
    pathComps (List.replicate k '/' ++ joinSlash ds) = ds := by
  unfold pathComps
  rw [splitSlash_replicate_slash]
  cases ds with
  | nil =>
    have h1 : splitSlash (joinSlash ([] : List (List Char))) = [[]] := rfl
    rw [h1, List.filter_append, filter_replicate_nil]
    rfl
  | cons d ds' =>
    rw [splitSlash_joinSlash _ (by simp) (fun x hx => (hds x hx).2.2.2),
      List.filter_append, filter_replicate_nil, List.nil_append]
    refine List.filter_eq_self.mpr ?_
    intro a ha
    simpa using (hds a ha).1

/-- C1: for every client-supplied path `p` and library root `R` (with the
process working directory absolute, as `os.getcwd()` guarantees),
`validate_path` either rejects — its error type has only the values
`PathTraversalError` and `InvalidPathError` — or returns an absolute,
`normpath`-normalized path whose nonempty slash-separated components extend
those of the canonical root `abspath(normpath(R))` by at least one plain
component, so the canonical root is a component-wise prefix of the result,
not merely a string prefix. -/
theorem validate_path_contains_root (p R cwd : List Char) (hcwd : isAbs cwd)
    (q : List Char) (h : validate_path p R cwd = .ok q) :
    isAbs q ∧ normpath q = q ∧
      ∃ cs, cs ≠ [] ∧ (∀ c ∈ cs, goodComp c) ∧
        pathComps q = pathComps (abspath cwd (normpath R)) ++ cs := by
  obtain ⟨k, bs, cs, hk, hbs, hcsne, hcs, hbase, hq⟩ := validate_path_ok_form p R cwd hcwd q h
  have hk0 : k ≠ 0 := by rcases hk with rfl | rfl <;> simp
  have hgoodall : ∀ x ∈ bs ++ cs, goodComp x := by
    intro x hx
    rcases List.mem_append.mp hx with hx | hx
    · exact hbs x hx
    · exact hcs x hx
  subst hq
  refine ⟨isAbs_replicate_append k hk0 _, normpath_normal k hk _ hgoodall,
    cs, hcsne, hcs, ?_⟩
  rw [hbase, pathComps_normal k (bs ++ cs) hgoodall, pathComps_normal k bs hbs]

/-- Witness for `validate_path_contains_root` at a concrete input. -/
theorem validate_path_contains_root_witness :
    isAbs ['/'] ∧ validate_path ['a'] ['/', 'r'] ['/'] = .ok ['/', 'r', '/', 'a'] ∧
      (isAbs ['/', 'r', '/', 'a'] ∧ normpath ['/', 'r', '/', 'a'] = ['/', 'r', '/', 'a'] ∧
        ∃ cs, cs ≠ [] ∧ (∀ c ∈ cs, goodComp c) ∧
          pathComps ['/', 'r', '/', 'a'] = pathComps (abspath ['/'] (normpath ['/', 'r'])) ++ cs) :=
  ⟨by decide, by rfl, validate_path_contains_root ['a'] ['/', 'r'] ['/'] (by decide)
    ['/', 'r', '/', 'a'] (by rfl)⟩

/-!
SHA-256 (`hashlib.sha256`), implemented over byte lists (`List Nat`,
elements `< 256`) with 32-bit words as `Nat` reduced mod `2 ^ 32`.
-/

/-- 32-bit rotate right. -/
def rotr32 (x n : Nat) : Nat :=
  ((x >>> n) ||| (x <<< (32 - n))) % 4294967296

/-- SHA-256 round constants. -/
def sha256K : List Nat := [
  1116352408, 1899447441, 3049323471, 3921009573, 961987163, 1508970993,
  2453635748, 2870763221, 3624381080, 310598401, 607225278, 1426881987,
  1925078388, 2162078206, 2614888103, 3248222580, 3835390401, 4022224774,
  264347078, 604807628, 770255983, 1249150122, 1555081692, 1996064986,
  2554220882, 2821834349, 2952996808, 3210313671, 3336571891, 3584528711,
  113926993, 338241895, 666307205, 773529912, 1294757372, 1396182291,
  1695183700, 1986661051, 2177026350, 2456956037, 2730485921, 2820302411,
  3259730800, 3345764771, 3516065817, 3600352804, 4094571909, 275423344,
  430227734, 506948616, 659060556, 883997877, 958139571, 1322822218,
  1537002063, 1747873779, 1955562222, 2024104815, 2227730452, 2361852424,
  2428436474, 2756734187, 3204031479, 3329325298]

/-- SHA-256 initial hash state. -/
def sha256H0 : List Nat := [
  1779033703, 3144134277, 1013904242, 2773480762, 1359893119, 2600822924,
  528734635, 1541459225]

/-- Big-endian 32-bit word from four bytes. -/
def toWords32 : List Nat → List Nat
  | b0 :: b1 :: b2 :: b3 :: rest => (((b0 * 256 + b1) * 256 + b2) * 256 + b3) :: toWords32 rest
  | _ => []

/-- Big-endian bytes of a 32-bit word. -/
def u32be (n : Nat) : List Nat :=
  [(n >>> 24) % 256, (n >>> 16) % 256, (n >>> 8) % 256, n % 256]

/-- Big-endian bytes of a 64-bit word. -/
def u64be (n : Nat) : List Nat :=
  [(n >>> 56) % 256, (n >>> 48) % 256, (n >>> 40) % 256, (n >>> 32) % 256,
   (n >>> 24) % 256, (n >>> 16) % 256, (n >>> 8) % 256, n % 256]

/-- One message-schedule extension step (appends `w[i]` for the current
length `i`). -/
def sha256Extend (w : List Nat) : List Nat :=
  let i := w.length
  let w15 := w.getD (i - 15) 0
  let w2 := w.getD (i - 2) 0
  let s0 := rotr32 w15 7 ^^^ rotr32 w15 18 ^^^ (w15 >>> 3)
  let s1 := rotr32 w2 17 ^^^ rotr32 w2 19 ^^^ (w2 >>> 10)
  w ++ [(w.getD (i - 16) 0 + s0 + w.getD (i - 7) 0 + s1) % 4294967296]

/-- One SHA-256 compression round over the 8-word working state. -/
def sha256Round (st : List Nat) (kw : Nat × Nat) : List Nat :=
  match st with
  | [a, b, c, d, e, f, g, h] =>
    let S1 := rotr32 e 6 ^^^ rotr32 e 11 ^^^ rotr32 e 25
    let ch := (e &&& f) ^^^ ((e ^^^ 4294967295) &&& g)
    let temp1 := (h + S1 + ch + kw.1 + kw.2) % 4294967296
    let S0 := rotr32 a 2 ^^^ rotr32 a 13 ^^^ rotr32 a 22
    let maj := (a &&& b) ^^^ (a &&& c) ^^^ (b &&& c)
    let temp2 := (S0 + maj) % 4294967296
    [(temp1 + temp2) % 4294967296, a, b, c, (d + temp1) % 4294967296, e, f, g]
  | other => other

/-- Compress one 64-byte block into the hash state. -/
def sha256Block (h : List Nat) (block : List Nat) : List Nat :=
  let w := sha256Extend^[48] (toWords32 block)
  let s := (sha256K.zip w).foldl sha256Round h
  (h.zip s).map (fun xy => (xy.1 + xy.2) % 4294967296)

/-- SHA-256 padding: `0x80`, zeros to 56 mod 64, then the bit length. -/
def sha256Pad (msg : List Nat) : List Nat :=
  let z := (120 - ((msg.length + 1) % 64)) % 64
  msg ++ 128 :: List.replicate z 0 ++ u64be (msg.length * 8)

/-- Split into 64-byte chunks (fuel-indexed structural recursion; the fuel
`l.length` always suffices since each step consumes at least one byte). -/
def chunks64Fuel : Nat → List Nat → List (List Nat)
  | 0, _ => []
  | _, [] => []
  | fuel + 1, l => l.take 64 :: chunks64Fuel fuel (l.drop 64)

/-- Split into 64-byte chunks. -/
def chunks64 (l : List Nat) : List (List Nat) :=
  chunks64Fuel l.length l

/-- `hashlib.sha256(msg).digest()`: the 32 digest bytes. -/
def sha256Bytes (msg : List Nat) : List Nat :=
  (((chunks64 (sha256Pad msg)).foldl sha256Block sha256H0).map u32be).join

/-- Lowercase hex digit. -/
def hexChar (n : Nat) : Char :=
  if n < 10 then Char.ofNat (48 + n) else Char.ofNat (87 + n)

/-- Two lowercase hex digits of a byte. -/
def hexByte (b : Nat) : List Char := [hexChar (b / 16), hexChar (b % 16)]

/-- `hashlib.sha256(msg).hexdigest()`: 64 lowercase hex characters. -/
def sha256Hex (msg : List Nat) : List Char :=
  ((sha256Bytes msg).map hexByte).join

/-- FIPS 180-4 test vector: SHA-256 of the empty message. -/
theorem sha256Hex_nil_vector : sha256Hex [] =
    ('e' :: '3' :: 'b' :: '0' :: 'c' :: '4' :: '4' :: '2' :: '9' :: '8' :: 'f' :: 'c' ::
     '1' :: 'c' :: '1' :: '4' :: '9' :: 'a' :: 'f' :: 'b' :: 'f' :: '4' :: 'c' :: '8' ::
     '9' :: '9' :: '6' :: 'f' :: 'b' :: '9' :: '2' :: '4' :: '2' :: '7' :: 'a' :: 'e' ::
     '4' :: '1' :: 'e' :: '4' :: '6' :: '4' :: '9' :: 'b' :: '9' :: '3' :: '4' :: 'c' ::
     'a' :: '4' :: '9' :: '5' :: '9' :: '9' :: '1' :: 'b' :: '7' :: '8' :: '5' :: '2' ::
     'b' :: '8' :: '5' :: '5' :: []) := by rfl

/-- FIPS 180-4 test vector: SHA-256 of `"abc"`. -/
theorem sha256Hex_abc_vector : sha256Hex [97, 98, 99] =
    ('b' :: 'a' :: '7' :: '8' :: '1' :: '6' :: 'b' :: 'f' :: '8' :: 'f' :: '0' :: '1' ::
     'c' :: 'f' :: 'e' :: 'a' :: '4' :: '1' :: '4' :: '1' :: '4' :: '0' :: 'd' :: 'e' ::
     '5' :: 'd' :: 'a' :: 'e' :: '2' :: '2' :: '2' :: '3' :: 'b' :: '0' :: '0' :: '3' ::
     '6' :: '1' :: 'a' :: '3' :: '9' :: '6' :: '1' :: '7' :: '7' :: 'a' :: '9' :: 'c' ::
     'b' :: '4' :: '1' :: '0' :: 'f' :: 'f' :: '6' :: '1' :: 'f' :: '2' :: '0' :: '0' ::
     '1' :: '5' :: 'a' :: 'd' :: []) := by rfl

theorem sha256Round_length (st : List Nat) (kw : Nat × Nat) (h : st.length = 8) :
    (sha256Round st kw).length = 8 := by
  match st with
  | [a, b, c, d, e, f, g, h'] => rfl
  | [] => simp at h
  | [_] => simp at h
  | [_, _] => simp at h
  | [_, _, _] => simp at h
  | [_, _, _, _] => simp at h
  | [_, _, _, _, _] => simp at h
  | [_, _, _, _, _, _] => simp at h
  | [_, _, _, _, _, _, _] => simp at h
  | _ :: _ :: _ :: _ :: _ :: _ :: _ :: _ :: _ :: _ => simp at h

theorem sha256_rounds_length (kws : List (Nat × Nat)) :
    ∀ st, st.length = 8 → (kws.foldl sha256Round st).length = 8 := by
  induction kws with
  | nil => intro st h; exact h
  | cons kw kws ih =>
    intro st h
    exact ih (sha256Round st kw) (sha256Round_length st kw h)

theorem sha256Block_length (hst blk : List Nat) (h : hst.length = 8) :
    (sha256Block hst blk).length = 8 := by
  unfold sha256Block
  rw [List.length_map, List.length_zip, h,
    sha256_rounds_length _ hst h]
  rfl

theorem sha256_blocks_length (blocks : List (List Nat)) :
    ∀ hst, hst.length = 8 → (blocks.foldl sha256Block hst).length = 8 := by
  induction blocks with
  | nil => intro hst h; exact h
  | cons b bs ih =>
    intro hst h
    exact ih (sha256Block hst b) (sha256Block_length hst b h)

theorem join_map_u32be_length (l : List Nat) :
    ((l.map u32be).join).length = 4 * l.length := by
  induction l with
  | nil => rfl
  | cons x xs ih => simp [u32be, ih]; omega

/-- The SHA-256 digest is exactly 32 bytes. -/
theorem sha256Bytes_length (msg : List Nat) : (sha256Bytes msg).length = 32 := by
  unfold sha256Bytes
  rw [join_map_u32be_length, sha256_blocks_length _ sha256H0 rfl]

theorem sha256Bytes_lt256 (msg : List Nat) : ∀ b ∈ sha256Bytes msg, b < 256 := by
  intro b hb
  unfold sha256Bytes at hb
  rw [List.mem_join] at hb
  obtain ⟨l, hl, hbl⟩ := hb
  rw [List.mem_map] at hl
  obtain ⟨n, _, rfl⟩ := hl
  simp only [u32be, List.mem_cons, List.not_mem_nil, or_false] at hbl
  rcases hbl with rfl | rfl | rfl | rfl <;> exact Nat.mod_lt _ (by omega)

theorem hexChar_props (n : Nat) (h : n < 16) :
    (hexChar n).toNat < 128 ∧ hexChar n ≠ Char.ofNat 0 := by
  interval_cases n <;> exact ⟨by decide, by decide⟩

theorem join_map_hexByte_length (l : List Nat) :
    ((l.map hexByte).join).length = 2 * l.length := by
  induction l with
  | nil => rfl
  | cons x xs ih => simp [hexByte, ih]; omega

/-- The SHA-256 hex digest has exactly 64 characters. -/
theorem sha256Hex_length (msg : List Nat) : (sha256Hex msg).length = 64 := by
  unfold sha256Hex
  rw [join_map_hexByte_length, sha256Bytes_length]

/-- Hex digest characters are printable ASCII, in particular not NUL. -/
theorem sha256Hex_props (msg : List Nat) :
    ∀ c ∈ sha256Hex msg, c.toNat < 128 ∧ c ≠ Char.ofNat 0 := by
  intro c hc
  unfold sha256Hex at hc
  rw [List.mem_join] at hc
  obtain ⟨l, hl, hcl⟩ := hc
  rw [List.mem_map] at hl
  obtain ⟨b, hb, rfl⟩ := hl
  have hb256 : b < 256 := sha256Bytes_lt256 msg b hb
  simp only [hexByte, List.mem_cons, List.not_mem_nil, or_false] at hcl
  rcases hcl with rfl | rfl
  · exact hexChar_props _ (by omega)
  · exact hexChar_props _ (Nat.mod_lt _ (by omega))

/-- UTF-8 encoding of a single character (as in `str.encode('utf-8')`). -/
def utf8EncodeChar (c : Char) : List Nat :=
  let n := c.toNat
  if n < 128 then [n]
  else if n < 2048 then [192 + n / 64, 128 + n % 64]
  else if n < 65536 then [224 + n / 4096, 128 + (n / 64) % 64, 128 + n % 64]
  else [240 + n / 262144, 128 + (n / 4096) % 64, 128 + (n / 64) % 64, 128 + n % 64]

/-- UTF-8 encoding of a string (`str.encode('utf-8')`). -/
def utf8Encode (s : List Char) : List Nat := (s.map utf8EncodeChar).join

/-- Decode one UTF-8 sequence starting with byte `b`, returning the decoded
character and the remaining bytes.  Rejects truncated and overlong
sequences, stray continuation bytes and surrogate code points, as
CPython's strict codec does. -/
def utf8DecodeOne (b : Nat) (rest : List Nat) : Option (Char × List Nat) :=
  if b < 128 then some (Char.ofNat b, rest)
  else if 194 ≤ b ∧ b ≤ 223 then
    match rest with
    | b2 :: rest2 =>
      if 128 ≤ b2 ∧ b2 ≤ 191 then
        some (Char.ofNat ((b - 192) * 64 + (b2 - 128)), rest2)
      else none
    | [] => none
  else if 224 ≤ b ∧ b ≤ 239 then
    match rest with
    | b2 :: b3 :: rest3 =>
      if (if b = 224 then 160 ≤ b2 ∧ b2 ≤ 191
          else if b = 237 then 128 ≤ b2 ∧ b2 ≤ 159
          else 128 ≤ b2 ∧ b2 ≤ 191) ∧ 128 ≤ b3 ∧ b3 ≤ 191 then
        some (Char.ofNat ((b - 224) * 4096 + (b2 - 128) * 64 + (b3 - 128)), rest3)
      else none
    | _ => none
  else if 240 ≤ b ∧ b ≤ 244 then
    match rest with
    | b2 :: b3 :: b4 :: rest4 =>
      if (if b = 240 then 144 ≤ b2 ∧ b2 ≤ 191
          else if b = 244 then 128 ≤ b2 ∧ b2 ≤ 143
          else 128 ≤ b2 ∧ b2 ≤ 191) ∧ 128 ≤ b3 ∧ b3 ≤ 191 ∧ 128 ≤ b4 ∧ b4 ≤ 191 then
        some (Char.ofNat ((b - 240) * 262144 + (b2 - 128) * 4096 + (b3 - 128) * 64 + (b4 - 128)),
          rest4)
      else none
    | _ => none
  else none

/-- Fuel-indexed UTF-8 decode loop; each step consumes at least one byte, so
fuel `l.length` always suffices. -/
def utf8DecodeFuel : Nat → List Nat → Option (List Char)
  | _, [] => some []
  | 0, _ :: _ => none
  | fuel + 1, b :: rest =>
    match utf8DecodeOne b rest with
    | none => none
    | some (c, rest') => (utf8DecodeFuel fuel rest').map (fun s => c :: s)

/-- Strict UTF-8 decoding (`bytes.decode('utf-8')` with the default strict
error handler). -/
def utf8Decode (l : List Nat) : Option (List Char) :=
  utf8DecodeFuel l.length l

theorem utf8Encode_ascii (s : List Char) (h : ∀ c ∈ s, c.toNat < 128) :
    utf8Encode s = s.map Char.toNat := by
  induction s with
  | nil => rfl
  | cons c cs ih =>
    have hc : c.toNat < 128 := h c (by simp)
    have henc : utf8EncodeChar c = [c.toNat] := by
      unfold utf8EncodeChar
      simp [hc]
    have ih' : utf8Encode cs = cs.map Char.toNat := ih (fun x hx => h x (by simp [hx]))
    show utf8EncodeChar c ++ utf8Encode cs = c.toNat :: cs.map Char.toNat
    rw [henc, ih']
    rfl

theorem utf8Decode_cons_ascii (b : Nat) (rest : List Nat) (hb : b < 128) :
    utf8Decode (b :: rest) = (utf8Decode rest).map (fun s => Char.ofNat b :: s) := by
  have hone : utf8DecodeOne b rest = some (Char.ofNat b, rest) := by
    unfold utf8DecodeOne
    rw [if_pos hb]
  show utf8DecodeFuel (rest.length + 1) (b :: rest) = _
  rw [utf8DecodeFuel, hone]
  rfl

theorem utf8Decode_ascii (l : List Nat) (h : ∀ b ∈ l, b < 128) :
    utf8Decode l = some (l.map Char.ofNat) := by
  induction l with
  | nil => rfl
  | cons b rest ih =>
    rw [utf8Decode_cons_ascii b rest (h b (by simp)), ih (fun x hx => h x (by simp [hx]))]
    rfl

/-!
Wire protocol (`fileharbor/common/protocol.py`).  `struct.pack` is used
there with format `'16s16s64sQII32s880s'` and no byte-order prefix, i.e.
NATIVE byte order and alignment; every platform CPython targets here
(x86-64, aarch64) is little-endian, and the format happens to need no
alignment padding (offsets 96, 104, 108 are already aligned), so the
embedding fixes little-endian integers at the source offsets.
-/

/-- JSON values (the `json` module).  Numbers are restricted to integers:
none of the verified claims exercises floating-point payloads. -/
inductive Json where
  | null
  | bool (b : Bool)
  | num (n : Int)
  | str (s : List Char)
  | arr (xs : List Json)
  | obj (kvs : List (List Char × Json))
deriving Repr

/-- Decimal digits of a natural number (fuel-indexed; fuel `n` suffices). -/
def natDecAux : Nat → Nat → List Char
  | 0, _ => []
  | _, 0 => []
  | fuel + 1, n => natDecAux fuel (n / 10) ++ [Char.ofNat (48 + n % 10)]

/-- Python `str(n)` for `n : Nat`. -/
def natDecimal (n : Nat) : List Char :=
  if n = 0 then ['0'] else natDecAux n n

/-- Python `str(i)` for an integer. -/
def intDecimal (i : Int) : List Char :=
  if i < 0 then '-' :: natDecimal i.natAbs else natDecimal i.toNat

/-- `\uXXXX` escape (lowercase hex), as `json.dumps` emits with
`ensure_ascii=True`. -/
def uEscape4 (n : Nat) : List Char :=
  ['\\', 'u', hexChar (n / 4096 % 16), hexChar (n / 256 % 16), hexChar (n / 16 % 16),
   hexChar (n % 16)]

/-- Escape one character of a JSON string as `json.dumps` does
(`ensure_ascii=True`): backslash, quote, the five control shorthands,
`\uXXXX` for other characters outside `0x20..0x7e` (surrogate pairs for
astral code points), everything else verbatim. -/
def jsonEscapeChar (c : Char) : List Char :=
  let n := c.toNat
  if c = '"' then ['\\', '"']
  else if c = '\\' then ['\\', '\\']
  else if n = 8 then ['\\', 'b']
  else if n = 9 then ['\\', 't']
  else if n = 10 then ['\\', 'n']
  else if n = 12 then ['\\', 'f']
  else if n = 13 then ['\\', 'r']
  else if n < 32 ∨ 126 < n then
    if n < 65536 then uEscape4 n
    else uEscape4 (55296 + (n - 65536) / 1024) ++ uEscape4 (56320 + (n - 65536) % 1024)
  else [c]

/-- A JSON string literal with quotes and escapes. -/
def jsonQuote (s : List Char) : List Char :=
  '"' :: (s.map jsonEscapeChar).join ++ ['"']

mutual

/-- `json.dumps` with CPython's default separators `', '` and `': '`. -/
def jsonDumps : Json → List Char
  | .null => "null".data
  | .bool true => "true".data
  | .bool false => "false".data
  | .num n => intDecimal n
  | .str s => jsonQuote s
  | .arr xs => '[' :: jsonDumpsList xs ++ [']']
  | .obj kvs => Char.ofNat 123 :: jsonDumpsObj kvs ++ [Char.ofNat 125]

/-- Comma-separated array elements. -/
def jsonDumpsList : List Json → List Char
  | [] => []
  | [x] => jsonDumps x
  | x :: xs => jsonDumps x ++ ',' :: ' ' :: jsonDumpsList xs

/-- Comma-separated `"key": value` members. -/
def jsonDumpsObj : List (List Char × Json) → List Char
  | [] => []
  | [(k, v)] => jsonQuote k ++ ':' :: ' ' :: jsonDumps v
  | (k, v) :: kvs => jsonQuote k ++ ':' :: ' ' :: jsonDumps v ++ ',' :: ' ' :: jsonDumpsObj kvs

end

/-- `PROTOCOL_VERSION` from `fileharbor/common/constants.py`. -/
def PROTOCOL_VERSION : List Char := ['1', '.', '0', '.', '0']

/-- `MESSAGE_HEADER_SIZE` from `fileharbor/common/constants.py`. -/
def MESSAGE_HEADER_SIZE : Nat := 1024

/-- `MessageHeader` from `fileharbor/common/protocol.py`, with the dataclass
defaults.  The three numeric fields are Python ints, hence `Int`. -/
structure MessageHeader where
  version : List Char := PROTOCOL_VERSION
  message_type : List Char := ['R', 'E', 'Q', 'U', 'E', 'S', 'T']
  command : List Char := []
  content_length : Int := 0
  status_code : Int := 200
  flags : Int := 0
  checksum : List Char := []
deriving Repr

/-- `struct` `'<n>s'` field: truncate to `n` bytes, pad with NUL. -/
def padTrunc (n : Nat) (bytes : List Nat) : List Nat :=
  bytes.take n ++ List.replicate (n - bytes.length) 0

/-- Little-endian bytes of a 64-bit word (native order of the platforms the
code runs on). -/
def u64le (n : Nat) : List Nat :=
  [n % 256, (n >>> 8) % 256, (n >>> 16) % 256, (n >>> 24) % 256,
   (n >>> 32) % 256, (n >>> 40) % 256, (n >>> 48) % 256, (n >>> 56) % 256]

/-- Little-endian bytes of a 32-bit word. -/
def u32le (n : Nat) : List Nat :=
  [n % 256, (n >>> 8) % 256, (n >>> 16) % 256, (n >>> 24) % 256]

/-- Little-endian value of a byte list. -/
def leVal : List Nat → Nat
  | [] => 0
  | b :: rest => b + 256 * leVal rest

/-- Big-endian value of a byte list. -/
def beVal (l : List Nat) : Nat := leVal l.reverse

/-- One constructor per distinct raise site exercised by serialization and
deserialization. -/
inductive ProtoErr where
  /-- `struct.error`: an integer field out of the range of its format code. -/
  | structRange
  /-- `InvalidMessageError`: header is not exactly 1024 bytes. -/
  | headerSize
  /-- `InvalidMessageError`: a header text field failed to decode. -/
  | headerDecode
  /-- `InvalidMessageError`: body length differs from `content_length`. -/
  | contentLengthMismatch
  /-- `InvalidMessageError`: body SHA-256 differs from the header checksum. -/
  | checksumMismatch
  /-- `UnicodeDecodeError` while decoding the body (uncaught in source). -/
  | unicodeDecode
  /-- `InvalidMessageError`: body is not valid JSON. -/
  | jsonDecode
deriving DecidableEq, Repr

/-- `MessageHeader.serialize`: `struct.pack('16s16s64sQII32s880s', ...)`
after byte-truncating each encoded text field.  `Q` demands
`0 ≤ v < 2^64` and `I` demands `0 ≤ v < 2^32`, else `struct.error`. -/
def MessageHeader.serialize (h : MessageHeader) : Except ProtoErr (List Nat) :=
  if h.content_length < 0 ∨ 18446744073709551616 ≤ h.content_length then .error .structRange
  else if h.status_code < 0 ∨ 4294967296 ≤ h.status_code then .error .structRange
  else if h.flags < 0 ∨ 4294967296 ≤ h.flags then .error .structRange
  else .ok (padTrunc 16 ((utf8Encode h.version).take 16)
    ++ padTrunc 16 ((utf8Encode h.message_type).take 16)
    ++ padTrunc 64 ((utf8Encode h.command).take 64)
    ++ u64le h.content_length.toNat
    ++ u32le h.status_code.toNat
    ++ u32le h.flags.toNat
    ++ padTrunc 32 ((utf8Encode h.checksum).take 32)
    ++ List.replicate 880 0)

/-- Python `s.rstrip('\x00')`. -/
def rstripNul (s : List Char) : List Char :=
  (s.reverse.dropWhile (fun c => decide (c = Char.ofNat 0))).reverse

/-- `MessageHeader.deserialize`: unpack the fixed layout, decode and
NUL-strip the text fields; any decode failure is `InvalidMessageError`. -/
def MessageHeader.deserialize (data : List Nat) : Except ProtoErr MessageHeader :=
  if data.length ≠ MESSAGE_HEADER_SIZE then .error .headerSize
  else
    match utf8Decode (data.take 16), utf8Decode ((data.drop 16).take 16),
        utf8Decode ((data.drop 32).take 64), utf8Decode ((data.drop 112).take 32) with
    | some v, some mt, some cmd, some ck =>
      .ok { version := rstripNul v
            message_type := rstripNul mt
            command := rstripNul cmd
            content_length := (leVal ((data.drop 96).take 8) : Int)
            status_code := (leVal ((data.drop 104).take 4) : Int)
            flags := (leVal ((data.drop 108).take 4) : Int)
            checksum := rstripNul ck }
    | _, _, _, _ => .error .headerDecode

/-- `Message` from `fileharbor/common/protocol.py` (`content` is the JSON
body; Python annotates it `Dict` but never checks). -/
structure Message where
  header : MessageHeader
  content : Json := Json.obj []

/-- `Message.serialize`: JSON-encode the body, record its length and (when
nonempty) its SHA-256 hex digest in the header, then emit header bytes
followed by body bytes. -/
def Message.serialize (m : Message) : Except ProtoErr (List Nat) :=
  let content_bytes := utf8Encode (jsonDumps m.content)
  let h1 : MessageHeader := { m.header with content_length := (content_bytes.length : Int) }
  let h2 : MessageHeader :=
    if content_bytes ≠ [] then { h1 with checksum := sha256Hex content_bytes } else h1
  match MessageHeader.serialize h2 with
  | .error e => .error e
  | .ok hb => .ok (hb ++ content_bytes)

/-- JSON whitespace skipping. -/
def skipWs (l : List Char) : List Char :=
  l.dropWhile (fun c => decide (c = ' ' ∨ c = Char.ofNat 9 ∨ c = Char.ofNat 10 ∨
    c = Char.ofNat 13))

/-- ASCII decimal digit test. -/
def isDigitCh (c : Char) : Bool :=
  decide (48 ≤ c.toNat ∧ c.toNat ≤ 57)

/-- Value of a digit string. -/
def natFromDigits (ds : List Char) : Nat :=
  ds.foldl (fun a c => a * 10 + (c.toNat - 48)) 0

/-- Parse a run of decimal digits (at least one). -/
def parseDigits (l : List Char) : Option (Nat × List Char) :=
  let ds := l.takeWhile isDigitCh
  if ds = [] then none else some (natFromDigits ds, l.drop ds.length)

/-- Hex digit value. -/
def parseHexDigit (c : Char) : Option Nat :=
  let n := c.toNat
  if 48 ≤ n ∧ n ≤ 57 then some (n - 48)
  else if 97 ≤ n ∧ n ≤ 102 then some (n - 87)
  else if 65 ≤ n ∧ n ≤ 70 then some (n - 55)
  else none

/-- Parse a JSON string body after the opening quote (fuel-indexed).
Surrogate-pair recombination of adjacent `\uXXXX` escapes is elided; the
verified claims never reach the parser with such input. -/
def parseStringBody : Nat → List Char → Option (List Char × List Char)
  | 0, _ => none
  | _ + 1, [] => none
  | fuel + 1, c :: rest =>
    if c = '"' then some ([], rest)
    else if c = '\\' then
      match rest with
      | [] => none
      | e :: rest2 =>
        if e = '"' ∨ e = '\\' ∨ e = '/' then
          (parseStringBody fuel rest2).map (fun p => (e :: p.1, p.2))
        else if e = 'b' then
          (parseStringBody fuel rest2).map (fun p => (Char.ofNat 8 :: p.1, p.2))
        else if e = 't' then
          (parseStringBody fuel rest2).map (fun p => (Char.ofNat 9 :: p.1, p.2))
        else if e = 'n' then
          (parseStringBody fuel rest2).map (fun p => (Char.ofNat 10 :: p.1, p.2))
        else if e = 'f' then
          (parseStringBody fuel rest2).map (fun p => (Char.ofNat 12 :: p.1, p.2))
        else if e = 'r' then
          (parseStringBody fuel rest2).map (fun p => (Char.ofNat 13 :: p.1, p.2))
        else if e = 'u' then
          match rest2 with
          | h1 :: h2 :: h3 :: h4 :: rest3 =>
            match parseHexDigit h1, parseHexDigit h2, parseHexDigit h3, parseHexDigit h4 with
            | some d1, some d2, some d3, some d4 =>
              (parseStringBody fuel rest3).map
                (fun p => (Char.ofNat (d1 * 4096 + d2 * 256 + d3 * 16 + d4) :: p.1, p.2))
            | _, _, _, _ => none
          | _ => none
        else none
    else if c.toNat < 32 then none
    else (parseStringBody fuel rest).map (fun p => (c :: p.1, p.2))

/-- Parse a JSON number; fractional and exponent forms are rejected (the
`Json` model carries integers only). -/
def parseJsonNumber (l : List Char) : Option (Json × List Char) :=
  let (neg, l1) := match l with
    | '-' :: t => (true, t)
    | _ => (false, l)
  match parseDigits l1 with
  | none => none
  | some (n, rest) =>
    match rest with
    | '.' :: _ => none
    | 'e' :: _ => none
    | 'E' :: _ => none
    | _ => some (Json.num (if neg then -(n : Int) else (n : Int)), rest)

mutual

/-- Parse one JSON value (fuel-indexed recursive descent). -/
def parseJsonValue : Nat → List Char → Option (Json × List Char)
  | 0, _ => none
  | fuel + 1, l =>
    match skipWs l with
    | [] => none
    | c :: rest =>
      if c = '"' then (parseStringBody fuel rest).map (fun p => (Json.str p.1, p.2))
      else if c = Char.ofNat 123 then
        match skipWs rest with
        | [] => none
        | c2 :: rest2 =>
          if c2 = Char.ofNat 125 then some (Json.obj [], rest2)
          else parseJsonMembers fuel (c2 :: rest2) []
      else if c = '[' then
        match skipWs rest with
        | [] => none
        | c2 :: rest2 =>
          if c2 = ']' then some (Json.arr [], rest2)
          else parseJsonItems fuel (c2 :: rest2) []
      else if c = 't' then
        match rest with
        | 'r' :: 'u' :: 'e' :: r => some (Json.bool true, r)
        | _ => none
      else if c = 'f' then
        match rest with
        | 'a' :: 'l' :: 's' :: 'e' :: r => some (Json.bool false, r)
        | _ => none
      else if c = 'n' then
        match rest with
        | 'u' :: 'l' :: 'l' :: r => some (Json.null, r)
        | _ => none
      else parseJsonNumber (c :: rest)

/-- Parse the members of a JSON object after the opening brace. -/
def parseJsonMembers : Nat → List Char → List (List Char × Json) →
    Option (Json × List Char)
  | 0, _, _ => none
  | fuel + 1, l, acc =>
    match skipWs l with
    | [] => none
    | c :: rest =>
      if c = '"' then
        match parseStringBody fuel rest with
        | none => none
        | some (k, rest2) =>
          match skipWs rest2 with
          | ':' :: rest3 =>
            match parseJsonValue fuel rest3 with
            | none => none
            | some (v, rest4) =>
              match skipWs rest4 with
              | ',' :: rest5 => parseJsonMembers fuel rest5 (acc ++ [(k, v)])
              | c5 :: rest5 =>
                if c5 = Char.ofNat 125 then some (Json.obj (acc ++ [(k, v)]), rest5) else none
              | [] => none
          | _ => none
      else none

/-- Parse the items of a JSON array after the opening bracket. -/
def parseJsonItems : Nat → List Char → List Json → Option (Json × List Char)
  | 0, _, _ => none
  | fuel + 1, l, acc =>
    match parseJsonValue fuel l with
    | none => none
    | some (v, rest) =>
      match skipWs rest with
      | ',' :: rest2 => parseJsonItems fuel rest2 (acc ++ [v])
      | ']' :: rest2 => some (Json.arr (acc ++ [v]), rest2)
      | _ => none

end

/-- `json.loads`: parse a complete JSON document. -/
def jsonLoads (s : List Char) : Option Json :=
  match parseJsonValue (2 * s.length + 2) s with
  | some (v, rest) => if skipWs rest = [] then some v else none
  | none => none

/-- `Message.deserialize`: parse the header, check the body length against
`content_length`, verify the body SHA-256 against the header checksum when
both are nonempty, then JSON-parse the body. -/
def Message.deserialize (header_data content_data : List Nat) : Except ProtoErr Message :=
  match MessageHeader.deserialize header_data with
  | .error e => .error e
  | .ok header =>
    if (content_data.length : Int) ≠ header.content_length then .error .contentLengthMismatch
    else if header.checksum ≠ [] ∧ content_data ≠ [] ∧
        sha256Hex content_data ≠ header.checksum then .error .checksumMismatch
    else if content_data = [] then .ok { header := header, content := Json.obj [] }
    else
      match utf8Decode content_data with
      | none => .error .unicodeDecode
      | some s =>
        match jsonLoads s with
        | none => .error .jsonDecode
        | some j => .ok { header := header, content := j }

theorem padTrunc_length (n : Nat) (bs : List Nat) : (padTrunc n bs).length = n := by
  simp [padTrunc]
  omega

theorem leVal_u64le (n : Nat) (h : n < 18446744073709551616) : leVal (u64le n) = n := by
  simp only [u64le, leVal, Nat.shiftRight_eq_div_pow]
  norm_num
  omega

theorem leVal_u32le (n : Nat) (h : n < 4294967296) : leVal (u32le n) = n := by
  simp only [u32le, leVal, Nat.shiftRight_eq_div_pow]
  norm_num
  omega

theorem natDecimal_ne_nil (n : Nat) : natDecimal n ≠ [] := by
  unfold natDecimal
  split
  · simp
  · next hn =>
    cases n with
    | zero => exact absurd rfl hn
    | succ m =>
      show natDecAux (m + 1) (m + 1) ≠ []
      rw [natDecAux]
      simp
      omega

theorem jsonDumps_ne_nil (j : Json) : jsonDumps j ≠ [] := by
  cases j with
  | null => simp [jsonDumps]
  | bool b => cases b <;> simp [jsonDumps]
  | num n =>
    rw [jsonDumps, intDecimal]
    split
    · simp
    · exact natDecimal_ne_nil _
  | str s => simp [jsonDumps, jsonQuote]
  | arr xs => simp [jsonDumps]
  | obj kvs => simp [jsonDumps]

theorem utf8EncodeChar_ne_nil (c : Char) : utf8EncodeChar c ≠ [] := by
  simp only [utf8EncodeChar]
  split
  · simp
  · split
    · simp
    · split <;> simp

theorem utf8Encode_ne_nil (s : List Char) (h : s ≠ []) : utf8Encode s ≠ [] := by
  obtain ⟨c, cs, rfl⟩ := List.exists_cons_of_ne_nil h
  show utf8EncodeChar c ++ utf8Encode cs ≠ []
  intro hco
  exact utf8EncodeChar_ne_nil c (List.append_eq_nil.mp hco).1

theorem dropWhile_eq_self_of_all (p : Char → Bool) (l : List Char)
    (h : ∀ c ∈ l, p c = false) : l.dropWhile p = l := by
  cases l with
  | nil => rfl
  | cons c cs => simp [List.dropWhile_cons, h c (by simp)]

theorem rstripNul_id (s : List Char) (h : ∀ c ∈ s, c ≠ Char.ofNat 0) :
    rstripNul s = s := by
  unfold rstripNul
  rw [dropWhile_eq_self_of_all _ _ ?_, List.reverse_reverse]
  intro c hc
  simpa using h c (List.mem_reverse.mp hc)

/-- The serialized header is 1024 bytes and its slices at the source
offsets are the packed fields. -/
theorem MessageHeader.serialize_slices (h : MessageHeader) (bs : List Nat)
    (hok : MessageHeader.serialize h = .ok bs) :
    bs.length = 1024 ∧
      bs.take 16 = padTrunc 16 ((utf8Encode h.version).take 16) ∧
      (bs.drop 16).take 16 = padTrunc 16 ((utf8Encode h.message_type).take 16) ∧
      (bs.drop 32).take 64 = padTrunc 64 ((utf8Encode h.command).take 64) ∧
      (bs.drop 96).take 8 = u64le h.content_length.toNat ∧
      (bs.drop 104).take 4 = u32le h.status_code.toNat ∧
      (bs.drop 108).take 4 = u32le h.flags.toNat ∧
      (bs.drop 112).take 32 = padTrunc 32 ((utf8Encode h.checksum).take 32) := by
  unfold MessageHeader.serialize at hok
  split at hok
  · cases hok
  split at hok
  · cases hok
  split at hok
  · cases hok
  simp only [Except.ok.injEq] at hok
  subst hok
  simp only [List.append_assoc]
  refine ⟨?_, ?_, ?_, ?_, ?_, ?_, ?_, ?_⟩
  · simp [padTrunc_length, u64le, u32le]
  · rw [List.take_left' (padTrunc_length 16 _)]
  · rw [List.drop_left' (padTrunc_length 16 _), List.take_left' (padTrunc_length 16 _)]
  · rw [show (32 : Nat) = 16 + 16 by rfl, ← List.drop_drop,
      List.drop_left' (padTrunc_length 16 _), List.drop_left' (padTrunc_length 16 _),
      List.take_left' (padTrunc_length 64 _)]
  · rw [show (96 : Nat) = 16 + (16 + 64) by rfl, ← List.drop_drop, ← List.drop_drop,
      List.drop_left' (padTrunc_length 16 _), List.drop_left' (padTrunc_length 16 _),
      List.drop_left' (padTrunc_length 64 _), List.take_left' (by simp [u64le])]
  · rw [show (104 : Nat) = 16 + (16 + (64 + 8)) by rfl, ← List.drop_drop, ← List.drop_drop,
      ← List.drop_drop, List.drop_left' (padTrunc_length 16 _),
      List.drop_left' (padTrunc_length 16 _), List.drop_left' (padTrunc_length 64 _),
      List.drop_left' (by simp [u64le]), List.take_left' (by simp [u32le])]
  · rw [show (108 : Nat) = 16 + (16 + (64 + (8 + 4))) by rfl, ← List.drop_drop,
      ← List.drop_drop, ← List.drop_drop, ← List.drop_drop,
      List.drop_left' (padTrunc_length 16 _), List.drop_left' (padTrunc_length 16 _),
      List.drop_left' (padTrunc_length 64 _), List.drop_left' (by simp [u64le]),
      List.drop_left' (by simp [u32le]), List.take_left' (by simp [u32le])]
  · rw [show (112 : Nat) = 16 + (16 + (64 + (8 + (4 + 4)))) by rfl, ← List.drop_drop,
      ← List.drop_drop, ← List.drop_drop, ← List.drop_drop, ← List.drop_drop,
      List.drop_left' (padTrunc_length 16 _), List.drop_left' (padTrunc_length 16 _),
      List.drop_left' (padTrunc_length 64 _), List.drop_left' (by simp [u64le]),
      List.drop_left' (by simp [u32le]), List.drop_left' (by simp [u32le]),
      List.take_left' (padTrunc_length 32 _)]

theorem MessageHeader.serialize_ok_ranges (h : MessageHeader) (bs : List Nat)
    (hok : MessageHeader.serialize h = .ok bs) :
    0 ≤ h.content_length ∧ h.content_length < 18446744073709551616 ∧
      0 ≤ h.status_code ∧ h.status_code < 4294967296 := by
  unfold MessageHeader.serialize at hok
  split at hok
  · cases hok
  split at hok
  · cases hok
  split at hok
  · cases hok
  next h1 h2 _ =>
    push_neg at h1 h2
    exact ⟨h1.1, h1.2, h2.1, h2.2⟩

/-- Deserializing a serialized header either fails to decode one of the
free-form text fields, or yields a header whose checksum is the stored
checksum truncated to 32 characters and whose integers are read back
little-endian. -/
theorem MessageHeader.deserialize_of_serialize (h : MessageHeader) (bs : List Nat)
    (hok : MessageHeader.serialize h = .ok bs)
    (hck_ascii : ∀ c ∈ h.checksum, c.toNat < 128 ∧ c ≠ Char.ofNat 0)
    (hck_len : 32 ≤ h.checksum.length) :
    MessageHeader.deserialize bs = .error .headerDecode ∨
      ∃ hdr, MessageHeader.deserialize bs = .ok hdr ∧
        hdr.checksum = h.checksum.take 32 ∧
        hdr.content_length = (leVal (u64le h.content_length.toNat) : Int) ∧
        hdr.status_code = (leVal (u32le h.status_code.toNat) : Int) := by
  obtain ⟨hlen, _, _, _, h96, h104, _, h112⟩ := MessageHeader.serialize_slices h bs hok
  have henc : utf8Encode h.checksum = h.checksum.map Char.toNat :=
    utf8Encode_ascii _ (fun c hc => (hck_ascii c hc).1)
  have htake : (utf8Encode h.checksum).take 32 = (h.checksum.take 32).map Char.toNat := by
    rw [henc, List.map_take]
  have htlen : ((h.checksum.take 32).map Char.toNat).length = 32 := by
    simp [hck_len]
  have hpad : padTrunc 32 ((utf8Encode h.checksum).take 32)
      = (h.checksum.take 32).map Char.toNat := by
    rw [padTrunc, htake, htlen]
    simp
  have hckbytes : (bs.drop 112).take 32 = (h.checksum.take 32).map Char.toNat := by
    rw [h112, hpad]
  have hdec : utf8Decode ((bs.drop 112).take 32) = some (h.checksum.take 32) := by
    rw [hckbytes, utf8Decode_ascii _ ?_]
    · rw [List.map_map]
      congr 1
      exact (List.map_congr_left (fun c _ => Char.ofNat_toNat c)).trans (List.map_id _)
    · intro b hb
      rw [List.mem_map] at hb
      obtain ⟨c, hc, rfl⟩ := hb
      exact (hck_ascii c (List.mem_of_mem_take hc)).1
  have hstrip : rstripNul (h.checksum.take 32) = h.checksum.take 32 :=
    rstripNul_id _ (fun c hc => (hck_ascii c (List.mem_of_mem_take hc)).2)
  unfold MessageHeader.deserialize
  rw [if_neg (by rw [hlen]; exact fun hco => hco rfl)]
  rcases hv : utf8Decode (bs.take 16) with _ | v
  · rw [hdec]
    left
    rfl
  rcases hmt : utf8Decode ((bs.drop 16).take 16) with _ | mt
  · rw [hdec]
    left
    rfl
  rcases hcmd : utf8Decode ((bs.drop 32).take 64) with _ | cmd
  · rw [hdec]
    left
    rfl
  rw [hdec]
  right
  refine ⟨_, rfl, ?_, ?_, ?_⟩
  · exact hstrip
  · rw [h96]
  · rw [h104]

theorem Message.deserialize_err_header (hd cd : List Nat) (e : ProtoErr)
    (h : MessageHeader.deserialize hd = .error e) :
    Message.deserialize hd cd = .error e := by
  unfold Message.deserialize
  rw [h]

theorem Message.deserialize_ok_header (hd cd : List Nat) (hdr : MessageHeader)
    (h : MessageHeader.deserialize hd = .ok hdr) :
    Message.deserialize hd cd =
      (if (cd.length : Int) ≠ hdr.content_length then .error .contentLengthMismatch
       else if hdr.checksum ≠ [] ∧ cd ≠ [] ∧ sha256Hex cd ≠ hdr.checksum then
         .error .checksumMismatch
       else if cd = [] then .ok { header := hdr, content := Json.obj [] }
       else
         match utf8Decode cd with
         | none => .error .unicodeDecode
         | some s =>
           match jsonLoads s with
           | none => .error .jsonDecode
           | some j => .ok { header := hdr, content := j }) := by
  unfold Message.deserialize
  rw [h]

/-- Core of the round-trip failure: a header carrying the (64-character)
hex digest of the body in its 32-byte checksum field never verifies. -/
theorem message_roundtrip_core (hd : MessageHeader) (cb bs : List Nat)
    (hcksum : hd.checksum = sha256Hex cb)
    (hclen : hd.content_length = (cb.length : Int))
    (hcb : cb ≠ [])
    (hok : MessageHeader.serialize hd = .ok bs) :
    Message.deserialize bs cb = .error .checksumMismatch ∨
      Message.deserialize bs cb = .error .headerDecode := by
  have hascii : ∀ c ∈ hd.checksum, c.toNat < 128 ∧ c ≠ Char.ofNat 0 := by
    rw [hcksum]; exact sha256Hex_props cb
  have hlen32 : 32 ≤ hd.checksum.length := by
    rw [hcksum, sha256Hex_length]; omega
  have hranges := MessageHeader.serialize_ok_ranges hd bs hok
  rcases MessageHeader.deserialize_of_serialize hd bs hok hascii hlen32 with hdes | ⟨hdr, hdes, hck, hcl, _⟩
  · right
    exact Message.deserialize_err_header bs cb _ hdes
  · left
    rw [Message.deserialize_ok_header bs cb hdr hdes]
    have hcb64 : cb.length < 18446744073709551616 := by
      have := hranges.2.1
      rw [hclen] at this
      exact_mod_cast this
    have hcleq : hdr.content_length = (cb.length : Int) := by
      rw [hcl, hclen]
      simp [leVal_u64le cb.length hcb64]
    rw [if_neg (by rw [hcleq]; exact fun hco => hco rfl)]
    have hckeq : hdr.checksum = (sha256Hex cb).take 32 := by rw [hck, hcksum]
    have hcklen : hdr.checksum.length = 32 := by
      rw [hckeq]
      simp [sha256Hex_length]
    rw [if_pos ?_]
    refine ⟨?_, hcb, ?_⟩
    · intro hco
      rw [hco] at hcklen
      simp at hcklen
    · intro hco
      have := congrArg List.length hco
      rw [sha256Hex_length, hcklen] at this
      simp at this

/-- C2: the spec claims `Message.deserialize ∘ Message.serialize` succeeds
for every message with a non-empty JSON body and that the recorded body
SHA-256 matches the recomputed one.  In the code the checksum header field
is 32 bytes while the hex digest has 64 characters: `serialize` truncates
the digest to 32 characters, `deserialize` compares the full 64-character
recomputation against the stored 32, so the round trip raises
`InvalidMessageError` for every message (the body of a serialized message
is always nonempty since `json.dumps` emits at least two characters).
This theorem establishes the code bug: deserialization of any serialized
message fails (with the checksum mismatch, or earlier if a header text
field was corrupted by byte-level truncation). -/
theorem message_roundtrip_always_fails (m : Message) (bs : List Nat)
    (hok : Message.serialize m = .ok bs) :
    Message.deserialize (bs.take 1024) (bs.drop 1024) = .error ProtoErr.checksumMismatch ∨
      Message.deserialize (bs.take 1024) (bs.drop 1024) = .error ProtoErr.headerDecode := by
  have hcbne : utf8Encode (jsonDumps m.content) ≠ [] :=
    utf8Encode_ne_nil _ (jsonDumps_ne_nil _)
  simp only [Message.serialize] at hok
  rw [if_pos hcbne] at hok
  split at hok
  · cases hok
  · next hb hs =>
    simp only [Except.ok.injEq] at hok
    subst hok
    have hslices := MessageHeader.serialize_slices _ hb hs
    have htake : (hb ++ utf8Encode (jsonDumps m.content)).take 1024 = hb :=
      List.take_left' hslices.1
    have hdrop : (hb ++ utf8Encode (jsonDumps m.content)).drop 1024 =
        utf8Encode (jsonDumps m.content) :=
      List.drop_left' hslices.1
    rw [htake, hdrop]
    exact message_roundtrip_core _ _ hb (by simp) (by simp) hcbne hs

/-- A concrete message: default header (a `PING`-like empty request) with
the empty JSON object body, whose serialized body is the two bytes `"{}"`. -/
def msg0 : Message := { header := {}, content := Json.obj [] }

/-- The serialized bytes of `msg0`. -/
def msgBytes0 : List Nat :=
  match Message.serialize msg0 with
  | .ok bs => bs
  | .error _ => []

/-- Witness for `message_roundtrip_always_fails`: serializing the concrete
message `msg0` succeeds, and deserializing the result raises the checksum
mismatch. -/
theorem message_roundtrip_always_fails_witness :
    Message.serialize msg0 = .ok msgBytes0 ∧
      (Message.deserialize (msgBytes0.take 1024) (msgBytes0.drop 1024)
          = .error ProtoErr.checksumMismatch ∨
        Message.deserialize (msgBytes0.take 1024) (msgBytes0.drop 1024)
          = .error ProtoErr.headerDecode) :=
  ⟨by rfl, message_roundtrip_always_fails msg0 msgBytes0 (by rfl)⟩

/-- A header with `content_length = 1`, the input falsifying the big-endian
claim. -/
def hdrC8 : MessageHeader := { content_length := 1 }

/-- Serialized bytes of `hdrC8`. -/
def hdrBytesC8 : List Nat :=
  match MessageHeader.serialize hdrC8 with
  | .ok bs => bs
  | .error _ => []

/-- C8 counterexample: for the header with `content_length = 1`, reading
bytes 96..103 of the serialized form as a big-endian unsigned 64-bit
integer yields `2^56`, not the stored value `1` — `struct.pack` without a
byte-order prefix uses native (little-endian) order, so the claim that the
integers are stored big-endian is false. -/
theorem header_bigendian_counterexample :
    (MessageHeader.serialize hdrC8).map (fun bs => beVal ((bs.drop 96).take 8)) =
      .ok 72057594037927936 ∧
      hdrC8.content_length = 1 ∧ (72057594037927936 : Nat) ≠ 1 :=
  ⟨by rfl, by rfl, by decide⟩

/-- C8 amended: the 1024-byte serialized header stores `content_length` in
bytes 96..103 and the status code in bytes 104..107 at the claimed offsets,
but as native little-endian unsigned integers (format `'QII'` without a
byte-order prefix), not big-endian. -/
theorem header_serialize_little_endian (h : MessageHeader) (bs : List Nat)
    (hok : MessageHeader.serialize h = .ok bs) :
    bs.length = 1024 ∧
      (leVal ((bs.drop 96).take 8) : Int) = h.content_length ∧
      (leVal ((bs.drop 104).take 4) : Int) = h.status_code := by
  obtain ⟨hlen, _, _, _, h96, h104, _, _⟩ := MessageHeader.serialize_slices h bs hok
  obtain ⟨hr0, hr1, hr2, hr3⟩ := MessageHeader.serialize_ok_ranges h bs hok
  refine ⟨hlen, ?_, ?_⟩
  · rw [h96, leVal_u64le _ (by omega), Int.toNat_of_nonneg hr0]
  · rw [h104, leVal_u32le _ (by omega), Int.toNat_of_nonneg hr2]

/-- Witness for `header_serialize_little_endian` at `hdrC8`. -/
theorem header_serialize_little_endian_witness :
    MessageHeader.serialize hdrC8 = .ok hdrBytesC8 ∧
      (hdrBytesC8.length = 1024 ∧
        (leVal ((hdrBytesC8.drop 96).take 8) : Int) = hdrC8.content_length ∧
        (leVal ((hdrBytesC8.drop 104).take 4) : Int) = hdrC8.status_code) :=
  ⟨by rfl, header_serialize_little_endian hdrC8 hdrBytesC8 (by rfl)⟩

/-!
Filesystem model for `fileharbor/server/file_operations.py` and
`fileharbor/utils/file_utils.py`.  The filesystem is a finite map from
absolute path strings to nodes; operations pass the map explicitly and
return it next to an `Except` mirroring raised exceptions, so that the
state at the moment an exception propagates is visible.  Timestamps are
opaque integers (the code treats them as opaque epoch seconds).
-/

/-- A filesystem node: a directory, or a regular file with its bytes. -/
structure FsNode where
  isDir : Bool
  content : List Nat
  mtime : Int
  ctime : Int
deriving DecidableEq, Repr

/-- The filesystem: an association list keyed by absolute path. -/
def Fs := List (List Char × FsNode)

instance : DecidableEq Fs := by unfold Fs; infer_instance

/-- Association-list lookup. -/
def alGet {α : Type} : List (List Char × α) → List Char → Option α
  | [], _ => none
  | kv :: rest, k => if kv.1 = k then some kv.2 else alGet rest k

/-- Association-list update: replace in place, or append a new binding
(Python dict insertion-order semantics). -/
def alSet {α : Type} (m : List (List Char × α)) (k : List Char) (v : α) :
    List (List Char × α) :=
  if (alGet m k).isSome then
    m.map (fun kv => if kv.1 = k then (k, v) else kv)
  else m ++ [(k, v)]

/-- Association-list deletion. -/
def alDel {α : Type} (m : List (List Char × α)) (k : List Char) :
    List (List Char × α) :=
  m.filter (fun kv => decide (kv.1 ≠ k))

theorem alGet_set_self {α : Type} (m : List (List Char × α)) (k : List Char) (v : α) :
    alGet (alSet m k v) k = some v := by
  unfold alSet
  split
  · induction m with
    | nil => next h => simp [alGet] at h
    | cons kv rest ih =>
      by_cases hk : kv.1 = k
      · simp [alGet, hk]
      · next h =>
        have h' : (alGet rest k).isSome := by
          rw [alGet, if_neg hk] at h
          exact h
        simp only [List.map_cons, if_neg hk]
        rw [alGet, if_neg hk]
        exact ih h'
  · induction m with
    | nil => simp [alGet]
    | cons kv rest ih =>
      next h =>
      rw [alGet] at h
      by_cases hk : kv.1 = k
      · rw [if_pos hk] at h
        simp at h
      · rw [if_neg hk] at h
        rw [List.cons_append, alGet, if_neg hk]
        exact ih h

theorem alGet_map_replace_ne {α : Type} (m : List (List Char × α)) (k k' : List Char)
    (v : α) (h : k' ≠ k) :
    alGet (m.map (fun kv => if kv.1 = k then (k, v) else kv)) k' = alGet m k' := by
  induction m with
  | nil => rfl
  | cons kv rest ih =>
    by_cases hk : kv.1 = k
    · simp only [List.map_cons, if_pos hk, alGet]
      rw [if_neg (fun hco => h hco.symm), if_neg (by rw [hk]; exact fun hco => h hco.symm)]
      exact ih
    · simp only [List.map_cons, if_neg hk, alGet]
      split
      · rfl
      · exact ih

theorem alGet_append_single_ne {α : Type} (m : List (List Char × α)) (k k' : List Char)
    (v : α) (h : k' ≠ k) :
    alGet (m ++ [(k, v)]) k' = alGet m k' := by
  induction m with
  | nil => simp [alGet]; exact fun hco => h hco.symm
  | cons kv rest ih =>
    rw [List.cons_append, alGet, alGet]
    split
    · rfl
    · exact ih

theorem alGet_set_ne {α : Type} (m : List (List Char × α)) (k k' : List Char) (v : α)
    (h : k' ≠ k) : alGet (alSet m k v) k' = alGet m k' := by
  unfold alSet
  split
  · exact alGet_map_replace_ne m k k' v h
  · exact alGet_append_single_ne m k k' v h

theorem alGet_del_self {α : Type} (m : List (List Char × α)) (k : List Char) :
    alGet (alDel m k) k = none := by
  induction m with
  | nil => rfl
  | cons kv rest ih =>
    rw [alDel, List.filter_cons]
    split
    · next hkeep =>
      rw [alGet]
      rw [if_neg (by simpa using hkeep)]
      exact ih
    · exact ih

theorem alGet_del_ne {α : Type} (m : List (List Char × α)) (k k' : List Char)
    (h : k' ≠ k) : alGet (alDel m k) k' = alGet m k' := by
  induction m with
  | nil => rfl
  | cons kv rest ih =>
    rw [alDel, List.filter_cons]
    split
    · next hkeep =>
      rw [alGet, alGet]
      split
      · rfl
      · exact ih
    · next hdrop =>
      have hk : kv.1 = k := by
        by_contra hco
        simp [hco] at hdrop
      rw [alGet, if_neg (by rw [hk]; exact fun hco => h hco.symm)]
      exact ih

theorem alGet_isSome_of_mem_keys {α : Type} (m : List (List Char × α)) (p : List Char)
    (h : p ∈ m.map Prod.fst) : ∃ v, alGet m p = some v := by
  induction m with
  | nil => simp at h
  | cons kv rest ih =>
    rw [List.map_cons, List.mem_cons] at h
    rcases h with h | h
    · exact ⟨kv.2, by rw [alGet, if_pos h.symm]⟩
    · by_cases hk : kv.1 = p
      · exact ⟨kv.2, by rw [alGet, if_pos hk]⟩
      · obtain ⟨v, hv⟩ := ih h
        exact ⟨v, by rw [alGet, if_neg hk]; exact hv⟩

/-- `os.path.exists`. -/
def fsExists (fs : Fs) (p : List Char) : Bool :=
  (alGet fs p).isSome

/-- `Path.is_dir`. -/
def fsIsDir (fs : Fs) (p : List Char) : Bool :=
  match alGet fs p with
  | some n => n.isDir
  | none => false

/-- `os.path.getsize` (0 for directories and missing paths; the code only
calls it on existing files). -/
def fsSize (fs : Fs) (p : List Char) : Nat :=
  match alGet fs p with
  | some n => n.content.length
  | none => 0

/-- `pathlib.PurePosixPath(p).parent` for the absolute normalized paths the
server passes around. -/
def pathParent (p : List Char) : List Char :=
  let parts := (splitSlash p).dropLast
  if parts = [[]] then ['/'] else joinSlash parts

/-- `pathlib.PurePosixPath(p).name`. -/
def pathName (p : List Char) : List Char :=
  (splitSlash p).getLast?.getD []

/-- `pathlib` `/` operator for a relative right operand. -/
def pathDiv (a b : List Char) : List Char :=
  if a.getLast? = some '/' then a ++ b else a ++ '/' :: b

/-- `TEMP_FILE_PREFIX` from `fileharbor/common/constants.py`. -/
def TEMP_FILE_PREFIX : List Char :=
  ['.', 'f', 'h', 'a', 'r', 'b', 'o', 'r', '_', 't', 'm', 'p', '_']

/-- The temp path `start_upload` derives for a target path:
`parent / (TEMP_FILE_PREFIX + name)`. -/
def tempPathOf (p : List Char) : List Char :=
  pathDiv (pathParent p) (TEMP_FILE_PREFIX ++ pathName p)

/-- ASCII lowercase (`str.lower`; the compared strings are hex digests). -/
def lowerChar (c : Char) : Char :=
  if 65 ≤ c.toNat ∧ c.toNat ≤ 90 then Char.ofNat (c.toNat + 32) else c

/-- `str.lower` on a string. -/
def strLower (s : List Char) : List Char := s.map lowerChar

/-- Exceptions raised by the file-operation backend. -/
inductive FileOpErr where
  /-- `FileExistsError`. -/
  | fileExists
  /-- `FileNotFoundError` (the FileHarbor one or the builtin from `open`). -/
  | fileNotFound
  /-- `InvalidPathError` (also stands for `IsADirectoryError` from `open`). -/
  | invalidPath
  /-- `ChecksumMismatchError`. -/
  | checksumMismatch
  /-- `DirectoryNotEmptyError`. -/
  | directoryNotEmpty
deriving DecidableEq, Repr

/-- `ensure_directory_exists` / `os.makedirs(exist_ok=True)`: create the
directory and every missing ancestor. -/
def ensureDirTree (fs : Fs) (p : List Char) : Fs :=
  let parts := splitSlash p
  (List.range parts.length).foldl
    (fun acc i =>
      let pref := joinSlash (parts.take (i + 1))
      let pref := if pref = [] then ['/'] else pref
      if fsExists acc pref then acc else alSet acc pref ⟨true, [], 0, 0⟩)
    fs

/-- `calculate_file_checksum` (`fileharbor/utils/checksum.py`): stream the
file and return the SHA-256 hex digest; `open` raises on missing paths and
directories. -/
def calculate_file_checksum (fs : Fs) (p : List Char) : Except FileOpErr (List Char) :=
  match alGet fs p with
  | some n => if n.isDir then .error .invalidPath else .ok (sha256Hex n.content)
  | none => .error .fileNotFound

/-- `safe_rename` (`fileharbor/utils/file_utils.py`): `os.rename`, falling
back to `shutil.copy2` + `os.remove` when the rename raises `OSError`
(cross-device); `crossDevice` selects the branch taken, both of which move
the node. -/
def safe_rename (fs : Fs) (old new : List Char) (crossDevice : Bool) : Fs :=
  if crossDevice then
    match alGet fs old with
    | some n => alDel (alSet fs new n) old
    | none => fs
  else
    match alGet fs old with
    | some n => alDel (alSet fs new n) old
    | none => fs

/-- `safe_delete`: `os.remove`, ignoring a missing file. -/
def safe_delete (fs : Fs) (p : List Char) : Fs :=
  alDel fs p

/-- `set_file_times`: `os.utime` with the given modification time. -/
def set_file_times (fs : Fs) (p : List Char) (mt : Int) : Fs :=
  match alGet fs p with
  | some n => alSet fs p { n with mtime := mt }
  | none => fs

namespace FileOperationHandler

/-- `FileOperationHandler.start_upload`.  Returns `(temp_path,
resume_offset)` and the updated filesystem; raising leaves the filesystem
as returned. -/
def start_upload (fs : Fs) (filepath : List Char) (file_size : Nat)
    (_expected_checksum : List Char) (resume : Bool) :
    Except FileOpErr (List Char × Nat) × Fs :=
  let temp_path := tempPathOf filepath
  if resume ∧ fsExists fs temp_path then
    let resume_offset := fsSize fs temp_path
    let resume_offset := if file_size ≤ resume_offset then 0 else resume_offset
    (.ok (temp_path, resume_offset), fs)
  else
    if fsExists fs filepath ∧ ¬ resume then (.error .fileExists, fs)
    else
      let fs1 := ensureDirTree fs (pathParent filepath)
      let fs2 :=
        if fsExists fs1 temp_path then fs1
        else alSet fs1 temp_path ⟨false, [], 0, 0⟩
      (.ok (temp_path, 0), fs2)

/-- `FileOperationHandler.complete_upload`: recompute the temp file's
SHA-256; on mismatch raise `ChecksumMismatchError` (the temp file is NOT
deleted); on match `safe_rename` temp → final and apply the modification
time when given. -/
def complete_upload (fs : Fs) (temp_filepath final_filepath : List Char)
    (expected_checksum : List Char) (modified_time : Option Int)
    (crossDevice : Bool) : Except FileOpErr Unit × Fs :=
  match calculate_file_checksum fs temp_filepath with
  | .error e => (.error e, fs)
  | .ok actual_checksum =>
    if strLower actual_checksum ≠ strLower expected_checksum then
      (.error .checksumMismatch, fs)
    else
      let fs1 := safe_rename fs temp_filepath final_filepath crossDevice
      let fs2 :=
        match modified_time with
        | some mt => set_file_times fs1 final_filepath mt
        | none => fs1
      (.ok (), fs2)

/-- `FileOperationHandler.delete_file`: 404-style `FileNotFoundError` when
missing, `InvalidPathError` for directories, else `safe_delete`. -/
def delete_file (fs : Fs) (filepath : List Char) : Except FileOpErr Unit × Fs :=
  if ¬ fsExists fs filepath then (.error .fileNotFound, fs)
  else if fsIsDir fs filepath then (.error .invalidPath, fs)
  else (.ok (), safe_delete fs filepath)

end FileOperationHandler

/-- `FileInfo` from `fileharbor/common/protocol.py`. -/
structure FileInfo where
  path : List Char
  size : Nat
  checksum : List Char
  created_time : Int
  modified_time : Int
  is_directory : Bool
deriving DecidableEq, Repr

/-- `Path.relative_to(base)` with the `except ValueError` fallback of
`_get_file_info` (keep the full path when not under `base`). -/
def relTo (p base : List Char) : List Char :=
  if p = base then ['.']
  else if (base ++ ['/']) <+: p then p.drop (base.length + 1)
  else p

/-- The directory prefix demarcating children of `dir`. -/
def childPrefix (dir : List Char) : List Char :=
  if dir.getLast? = some '/' then dir else dir ++ ['/']

/-- `p` is an immediate child of `dir` (`Path.iterdir` membership). -/
def isChild (dir p : List Char) : Bool :=
  decide (childPrefix dir <+: p) &&
    (p.drop (childPrefix dir).length ≠ []) &&
    !((p.drop (childPrefix dir).length).contains '/')

/-- `p` is a strict descendant of `dir` (`Path.rglob('*')` membership). -/
def isDescendant (dir p : List Char) : Bool :=
  decide (childPrefix dir <+: p) && (p.drop (childPrefix dir).length ≠ [])

/-- Lexicographic strict order on strings (Python `<` on `str`). -/
def strLt : List Char → List Char → Bool
  | [], [] => false
  | [], _ :: _ => true
  | _ :: _, [] => false
  | a :: as, b :: bs =>
    if a.toNat < b.toNat then true
    else if b.toNat < a.toNat then false
    else strLt as bs

/-- The sort key of `list_directory`: `(not is_directory, path)`,
directories first then alphabetical. -/
def fiKeyLt (a b : FileInfo) : Bool :=
  let ba : Nat := if a.is_directory then 0 else 1
  let bb : Nat := if b.is_directory then 0 else 1
  if ba < bb then true else if bb < ba then false else strLt a.path b.path

/-- Stable insertion for the embedding of Python `sorted`. -/
def insertSorted {α : Type} (lt : α → α → Bool) (x : α) : List α → List α
  | [] => [x]
  | y :: ys => if lt x y then x :: y :: ys else y :: insertSorted lt x ys

/-- Python `sorted` (stable). -/
def sortBy {α : Type} (lt : α → α → Bool) (l : List α) : List α :=
  l.foldl (fun acc x => insertSorted lt x acc) []

namespace FileOperationHandler

/-- `FileOperationHandler._get_file_info`: relative path, size, checksum —
computed for EVERY regular file, recursive or not ("manifest requirement"
comment in source) — and timestamps.  The `none` branch mirrors the
`except (OSError, FileNotFoundError)` fallbacks and is unreachable for
paths enumerated from the filesystem. -/
def _get_file_info (fs : Fs) (file_path base_path : List Char) : FileInfo :=
  let relative := relTo file_path base_path
  match alGet fs file_path with
  | some n =>
    if n.isDir then ⟨relative, 0, [], n.ctime, n.mtime, true⟩
    else ⟨relative, n.content.length, sha256Hex n.content, n.ctime, n.mtime, false⟩
  | none => ⟨relative, 0, [], 0, 0, false⟩

/-- `FileOperationHandler.list_directory`. -/
def list_directory (fs : Fs) (dirpath : List Char) (recursive : Bool) :
    Except FileOpErr (List FileInfo) :=
  if ¬ fsExists fs dirpath then .error .fileNotFound
  else if ¬ fsIsDir fs dirpath then .error .invalidPath
  else
    let entries := (fs.map Prod.fst).filter
      (fun p => if recursive then isDescendant dirpath p else isChild dirpath p)
    let files := entries.map (fun p => _get_file_info fs p dirpath)
    .ok (sortBy fiKeyLt files)

/-- `FileOperationHandler.get_manifest`: resolve `dirpath` against the
library base and list recursively. -/
def get_manifest (fs : Fs) (library_base_path dirpath : List Char) :
    Except FileOpErr (List FileInfo) :=
  let d := dirpath.dropWhile (fun c => decide (c = '/'))
  let resolved := if d = [] then library_base_path else pathDiv library_base_path d
  list_directory fs resolved true

end FileOperationHandler

theorem complete_upload_calc_ok (fs : Fs) (tmp fin ck : List Char) (mt : Option Int)
    (cd : Bool) (s : List Char) (h : calculate_file_checksum fs tmp = .ok s) :
    FileOperationHandler.complete_upload fs tmp fin ck mt cd =
      if strLower s ≠ strLower ck then (.error .checksumMismatch, fs)
      else
        (.ok (),
          match mt with
          | some t => set_file_times (safe_rename fs tmp fin cd) fin t
          | none => safe_rename fs tmp fin cd) := by
  unfold FileOperationHandler.complete_upload
  rw [h]

theorem safe_rename_eq (fs : Fs) (old new : List Char) (cd : Bool) (node : FsNode)
    (h : alGet fs old = some node) :
    safe_rename fs old new cd = alDel (alSet fs new node) old := by
  unfold safe_rename
  split <;> rw [h]

/-- Concrete temp path for the C3 scenario. -/
def tmpC3 : List Char := "/lib/.fharbor_tmp_g".data

/-- Concrete final path for the C3 scenario. -/
def finC3 : List Char := "/lib/g".data

/-- A one-byte temp file (content `"a"`). -/
def nodeC3 : FsNode := ⟨false, [97], 0, 0⟩

/-- Filesystem for the C3 scenario: the library directory and the temp file. -/
def fsC3 : Fs := [("/lib".data, ⟨true, [], 0, 0⟩), (tmpC3, nodeC3)]

/-- An expected checksum that does not match the temp file's digest. -/
def ckWrong : List Char := List.replicate 64 'a'

/-- C3 counterexample: with a temp file whose SHA-256 differs from the
expected checksum, `complete_upload` raises `ChecksumMismatchError` but the
temp file is still present afterwards (the code has no deletion on this
path), so "the temp file is deleted" is false; the final path is indeed
not created. -/
theorem complete_upload_mismatch_keeps_temp :
    (FileOperationHandler.complete_upload fsC3 tmpC3 finC3 ckWrong none false).1 =
        .error .checksumMismatch ∧
      fsExists (FileOperationHandler.complete_upload fsC3 tmpC3 finC3 ckWrong none false).2
        tmpC3 = true ∧
      fsExists (FileOperationHandler.complete_upload fsC3 tmpC3 finC3 ckWrong none false).2
        finC3 = false :=
  ⟨by rfl, by rfl, by rfl⟩

/-- C3 amended: when the recomputed SHA-256 of the temp file differs from
the expected checksum, `complete_upload` fails with `ChecksumMismatch`, the
temp file is RETAINED (not deleted), and the final path is not created (the
filesystem is unchanged); when the checksums match, the temp file is
renamed onto the final path (the cross-device fallback `copy2` + `remove`
producing the same result), leaving the final path with the temp file's
bytes and the temp path absent. -/
theorem complete_upload_behavior (fs : Fs) (tmp fin ck : List Char) (mt : Option Int)
    (cd : Bool) (node : FsNode) (hn : alGet fs tmp = some node)
    (hfile : node.isDir = false) :
    (strLower (sha256Hex node.content) ≠ strLower ck →
      FileOperationHandler.complete_upload fs tmp fin ck mt cd =
        (.error .checksumMismatch, fs)) ∧
    (strLower (sha256Hex node.content) = strLower ck → tmp ≠ fin →
      (FileOperationHandler.complete_upload fs tmp fin ck mt cd).1 = .ok () ∧
      alGet (FileOperationHandler.complete_upload fs tmp fin ck mt cd).2 tmp = none ∧
      ∃ n', alGet (FileOperationHandler.complete_upload fs tmp fin ck mt cd).2 fin = some n' ∧
        n'.content = node.content ∧ n'.isDir = false) := by
  have hcalc : calculate_file_checksum fs tmp = .ok (sha256Hex node.content) := by
    unfold calculate_file_checksum
    rw [hn]
    simp [hfile]
  constructor
  · intro hne
    rw [complete_upload_calc_ok fs tmp fin ck mt cd _ hcalc, if_pos hne]
  · intro heq hneq
    rw [complete_upload_calc_ok fs tmp fin ck mt cd _ hcalc, if_neg (by simp [heq])]
    have hren : safe_rename fs tmp fin cd = alDel (alSet fs fin node) tmp :=
      safe_rename_eq fs tmp fin cd node hn
    have hfin1 : alGet (safe_rename fs tmp fin cd) fin = some node := by
      rw [hren, alGet_del_ne _ _ _ (fun hco => hneq hco.symm), alGet_set_self]
    have htmp1 : alGet (safe_rename fs tmp fin cd) tmp = none := by
      rw [hren, alGet_del_self]
    cases mt with
    | none => exact ⟨rfl, htmp1, node, hfin1, rfl, hfile⟩
    | some t =>
      refine ⟨rfl, ?_, { node with mtime := t }, ?_, rfl, hfile⟩
      · show alGet (set_file_times (safe_rename fs tmp fin cd) fin t) tmp = none
        unfold set_file_times
        rw [hfin1, alGet_set_ne _ _ _ _ hneq, htmp1]
      · show alGet (set_file_times (safe_rename fs tmp fin cd) fin t) fin
            = some { node with mtime := t }
        unfold set_file_times
        rw [hfin1, alGet_set_self]

/-- Witness for `complete_upload_behavior`: the concrete mismatch scenario. -/
theorem complete_upload_behavior_witness :
    alGet fsC3 tmpC3 = some nodeC3 ∧ nodeC3.isDir = false ∧
      (strLower (sha256Hex nodeC3.content) ≠ strLower ckWrong →
        FileOperationHandler.complete_upload fsC3 tmpC3 finC3 ckWrong none false =
          (.error .checksumMismatch, fsC3)) :=
  ⟨by rfl, by rfl, (complete_upload_behavior fsC3 tmpC3 finC3 ckWrong none false nodeC3
    (by rfl) (by rfl)).1⟩

/-- Concrete target path for the C6 scenario. -/
def pC6 : List Char := "/lib/f".data

/-- Filesystem for the C6 scenario: a 3-byte temp file for `pC6`. -/
def fsC6 : Fs := [(tempPathOf pC6, ⟨false, [1, 2, 3], 0, 0⟩)]

/-- C6 counterexample: resuming with a temp file whose size (3) EQUALS the
expected size (3, hence `≤` it), `start_upload` returns `resume_offset = 0`
(the code zeroes the offset on `>=`), not the temp file's size as claimed. -/
theorem start_upload_equal_size_zero_offset :
    (FileOperationHandler.start_upload fsC6 pC6 3 [] true).1 =
        .ok (tempPathOf pC6, 0) ∧
      fsSize fsC6 (tempPathOf pC6) = 3 ∧ (0 : Nat) ≠ 3 :=
  ⟨by rfl, by rfl, by decide⟩

/-- C6 amended: if `resume` is true and a temp file exists, the returned
`resume_offset` is the temp file's size when that size is STRICTLY LESS
than the expected size, and 0 otherwise (in particular when the sizes are
equal); if the target file exists and `resume` is false, the call fails
with `FileExists`. -/
theorem start_upload_behavior (fs : Fs) (fp : List Char) (size : Nat) (ck : List Char) :
    (fsExists fs (tempPathOf fp) = true →
      FileOperationHandler.start_upload fs fp size ck true =
        (.ok (tempPathOf fp,
          if size ≤ fsSize fs (tempPathOf fp) then 0 else fsSize fs (tempPathOf fp)), fs)) ∧
    (fsExists fs fp = true →
      FileOperationHandler.start_upload fs fp size ck false = (.error .fileExists, fs)) := by
  constructor
  · intro h
    unfold FileOperationHandler.start_upload
    rw [if_pos ⟨rfl, h⟩]
  · intro h
    unfold FileOperationHandler.start_upload
    rw [if_neg (by simp), if_pos (by simp [h])]

/-- Witness for `start_upload_behavior` at the concrete C6 scenario with
expected size 5 (strictly above the temp size 3, so the offset is 3). -/
theorem start_upload_behavior_witness :
    fsExists fsC6 (tempPathOf pC6) = true ∧
      FileOperationHandler.start_upload fsC6 pC6 5 [] true =
        (.ok (tempPathOf pC6,
          if 5 ≤ fsSize fsC6 (tempPathOf pC6) then 0 else fsSize fsC6 (tempPathOf pC6)), fsC6) :=
  ⟨by rfl, (start_upload_behavior fsC6 pC6 5 []).1 (by rfl)⟩

theorem insertSorted_mem {α : Type} (lt : α → α → Bool) (x a : α) (l : List α) :
    a ∈ insertSorted lt x l ↔ a = x ∨ a ∈ l := by
  induction l with
  | nil => simp [insertSorted]
  | cons y ys ih =>
    rw [insertSorted]
    split
    · simp
    · rw [List.mem_cons, ih]
      simp [or_comm, or_assoc, or_left_comm]

theorem sortBy_mem_aux {α : Type} (lt : α → α → Bool) (l : List α) :
    ∀ acc a, (a ∈ l.foldl (fun acc x => insertSorted lt x acc) acc ↔ a ∈ l ∨ a ∈ acc) := by
  induction l with
  | nil => intro acc a; simp
  | cons x xs ih =>
    intro acc a
    rw [List.foldl_cons, ih, insertSorted_mem]
    simp [or_comm, or_assoc, or_left_comm]

theorem sortBy_mem {α : Type} (lt : α → α → Bool) (l : List α) (a : α) :
    a ∈ sortBy lt l ↔ a ∈ l := by
  rw [sortBy, sortBy_mem_aux]
  simp

/-- The directory `get_manifest` resolves `dirpath` to against the
library base (named subexpression of `get_manifest`). -/
def manifestRoot (library_base_path dirpath : List Char) : List Char :=
  let d := dirpath.dropWhile (fun c => decide (c = '/'))
  if d = [] then library_base_path else pathDiv library_base_path d

theorem get_manifest_eq (fs : Fs) (base d : List Char) :
    FileOperationHandler.get_manifest fs base d =
      FileOperationHandler.list_directory fs (manifestRoot base d) true := rfl

theorem list_directory_checksums (fs : Fs) (dirpath : List Char) (recursive : Bool)
    (l : List FileInfo) (h : FileOperationHandler.list_directory fs dirpath recursive = .ok l) :
    ∀ fi ∈ l, fi.is_directory = false →
      ∃ (p : List Char) (n : FsNode),
        alGet fs p = some n ∧ n.isDir = false ∧
        (if recursive then isDescendant dirpath p else isChild dirpath p) = true ∧
        fi.path = relTo p dirpath ∧ fi.size = n.content.length ∧
        fi.checksum = sha256Hex n.content := by
  unfold FileOperationHandler.list_directory at h
  split at h
  · cases h
  split at h
  · cases h
  simp only [Except.ok.injEq] at h
  subst h
  intro fi hfi hdir
  rw [sortBy_mem] at hfi
  rw [List.mem_map] at hfi
  obtain ⟨p, hp, rfl⟩ := hfi
  have hpkeys : p ∈ fs.map Prod.fst := (List.mem_filter.mp hp).1
  have hpfilt := (List.mem_filter.mp hp).2
  obtain ⟨n, hn⟩ := alGet_isSome_of_mem_keys fs p hpkeys
  unfold FileOperationHandler._get_file_info at hdir ⊢
  rw [hn] at hdir ⊢
  by_cases hd : n.isDir
  · simp [hd] at hdir
  · simp only [Bool.not_eq_true] at hd
    simp only [hd]
    exact ⟨p, n, hn, hd, hpfilt, rfl, rfl, rfl⟩

/-- C9 amended: `list_directory` fills the `checksum` field of every
regular-file entry — in BOTH recursive and non-recursive listings (the
source comments this "manifest requirement") — with the SHA-256 hex
digest of THAT entry's own file content: the entry arises from a file
node of the listed directory whose relative path the entry carries and
whose content hashes to the entry's checksum; `get_manifest` returns the
recursive listing of the resolved directory with the same property; the
claimed `checksum=""` for non-recursive listings does not hold. -/
theorem listing_and_manifest_checksums (fs : Fs) (dirpath base d : List Char)
    (recursive : Bool) (l l' : List FileInfo)
    (h1 : FileOperationHandler.list_directory fs dirpath recursive = .ok l)
    (h2 : FileOperationHandler.get_manifest fs base d = .ok l') :
    (∀ fi ∈ l, fi.is_directory = false →
      ∃ (p : List Char) (n : FsNode),
        alGet fs p = some n ∧ n.isDir = false ∧
        (if recursive then isDescendant dirpath p else isChild dirpath p) = true ∧
        fi.path = relTo p dirpath ∧ fi.size = n.content.length ∧
        fi.checksum = sha256Hex n.content) ∧
    (∀ fi ∈ l', fi.is_directory = false →
      ∃ (p : List Char) (n : FsNode),
        alGet fs p = some n ∧ n.isDir = false ∧
        isDescendant (manifestRoot base d) p = true ∧
        fi.path = relTo p (manifestRoot base d) ∧ fi.size = n.content.length ∧
        fi.checksum = sha256Hex n.content) := by
  refine ⟨list_directory_checksums fs dirpath recursive l h1, ?_⟩
  rw [get_manifest_eq] at h2
  have h3 := list_directory_checksums fs (manifestRoot base d) true l' h2
  intro fi hfi hd
  obtain ⟨p, n, hn, hnd, hfilt, hpath, hsize, hck⟩ := h3 fi hfi hd
  exact ⟨p, n, hn, hnd, by simpa using hfilt, hpath, hsize, hck⟩

/-- Filesystem for the C9 scenario: library `/lib` with one file `a`. -/
def fs9 : Fs := [("/lib".data, ⟨true, [], 0, 0⟩), ("/lib/a".data, ⟨false, [97], 0, 0⟩)]

/-- C9 counterexample: the non-recursive listing of `/lib` contains exactly
one entry and its `checksum` field is NOT empty, contradicting the claimed
`checksum=""` for non-recursive listings. -/
theorem list_nonrecursive_checksum_filled :
    (FileOperationHandler.list_directory fs9 ("/lib".data) false).map
        (fun l => l.map (fun fi => decide (fi.checksum = []))) = .ok [false] ∧
      ([false] : List Bool) ≠ [true] :=
  ⟨by rfl, by decide⟩

/-- Listing result for `fs9`. -/
def listC9 : List FileInfo :=
  match FileOperationHandler.list_directory fs9 ("/lib".data) false with
  | .ok l => l
  | .error _ => []

/-- Manifest result for `fs9`. -/
def manifestC9 : List FileInfo :=
  match FileOperationHandler.get_manifest fs9 ("/lib".data) ("/".data) with
  | .ok l => l
  | .error _ => []

/-- Witness for `listing_and_manifest_checksums` on the concrete `fs9`. -/
theorem listing_and_manifest_checksums_witness :
    FileOperationHandler.list_directory fs9 ("/lib".data) false = .ok listC9 ∧
      FileOperationHandler.get_manifest fs9 ("/lib".data) ("/".data) = .ok manifestC9 ∧
      ((∀ fi ∈ listC9, fi.is_directory = false →
          ∃ (p : List Char) (n : FsNode),
            alGet fs9 p = some n ∧ n.isDir = false ∧
            (if false then isDescendant ("/lib".data) p else isChild ("/lib".data) p) = true ∧
            fi.path = relTo p ("/lib".data) ∧ fi.size = n.content.length ∧
            fi.checksum = sha256Hex n.content) ∧
        (∀ fi ∈ manifestC9, fi.is_directory = false →
          ∃ (p : List Char) (n : FsNode),
            alGet fs9 p = some n ∧ n.isDir = false ∧
            isDescendant (manifestRoot ("/lib".data) ("/".data)) p = true ∧
            fi.path = relTo p (manifestRoot ("/lib".data) ("/".data)) ∧
            fi.size = n.content.length ∧
            fi.checksum = sha256Hex n.content)) :=
  ⟨by rfl, by rfl, listing_and_manifest_checksums fs9 ("/lib".data) ("/lib".data) ("/".data)
    false listC9 manifestC9 (by rfl) (by rfl)⟩

/-!
Connection handler (`fileharbor/server/connection_handler.py`).  The
handler is embedded per command as a function from the request fields and
the server state to the response `Message` and the new state;
`library_manager.resolve_path` is `validate_path` against the library
root.  The human-readable error strings are abbreviated — the claims
concern status codes and state, not message wording.
-/

/-- `CMD_DELETE` from `fileharbor/common/constants.py`. -/
def CMD_DELETE : List Char := "DELETE".data

/-- `CMD_PUT_START`. -/
def CMD_PUT_START : List Char := "PUT_START".data

/-- `CMD_PUT_COMPLETE`. -/
def CMD_PUT_COMPLETE : List Char := "PUT_COMPLETE".data

/-- `create_response` from `fileharbor/common/protocol.py`. -/
def create_response (command : List Char) (status_code : Int) (content : Json) : Message :=
  { header := { message_type := "RESPONSE".data, command := command,
                status_code := status_code },
    content := content }

/-- `create_error_response`: the response body is the error dict. -/
def create_error_response (command : List Char) (error_message : List Char)
    (status_code : Int) : Message :=
  create_response command status_code (Json.obj [("error".data, Json.str error_message)])

/-- `str(e)` for path validation errors (abbreviated). -/
def pathErrText : PathErr → List Char
  | .pathTraversal => "Path traversal attempt detected".data
  | .invalidPath => "Invalid path".data

/-- `str(e)` for file-operation errors (abbreviated). -/
def fileOpErrText : FileOpErr → List Char
  | .fileExists => "File already exists".data
  | .fileNotFound => "File not found".data
  | .invalidPath => "Invalid path".data
  | .checksumMismatch => "File checksum verification failed".data
  | .directoryNotEmpty => "Directory not empty".data

namespace ConnectionHandler

/-- `ConnectionHandler._handle_delete`: resolve the path and delete; EVERY
exception — including `FileNotFoundError` for a missing path and
`PathTraversalError` — is caught by the blanket `except Exception` and
answered with status 500 (`STATUS_NOT_FOUND` is imported but never used). -/
def handle_delete (fs : Fs) (libroot cwd filepath : List Char) : Message × Fs :=
  match validate_path filepath libroot cwd with
  | .error e => (create_error_response CMD_DELETE (pathErrText e) 500, fs)
  | .ok abs =>
    match FileOperationHandler.delete_file fs abs with
    | (.error e, fs') => (create_error_response CMD_DELETE (fileOpErrText e) 500, fs')
    | (.ok _, fs') => (create_response CMD_DELETE 200 (Json.obj []), fs')

end ConnectionHandler

theorem handle_delete_res_ok (fs : Fs) (libroot cwd fp q : List Char)
    (h : validate_path fp libroot cwd = .ok q) :
    ConnectionHandler.handle_delete fs libroot cwd fp =
      (match FileOperationHandler.delete_file fs q with
       | (.error e, fs') => (create_error_response CMD_DELETE (fileOpErrText e) 500, fs')
       | (.ok _, fs') => (create_response CMD_DELETE 200 (Json.obj []), fs')) := by
  unfold ConnectionHandler.handle_delete
  rw [h]

/-- C5 amended: a DELETE naming a path that resolves under the library root
but does not exist is answered with status 500 — NOT 404 — because
`delete_file` raises `FileNotFoundError` and `_handle_delete`'s blanket
`except Exception` maps every error to `STATUS_INTERNAL_ERROR`; the
filesystem is left unchanged. -/
theorem handle_delete_missing_500 (fs : Fs) (libroot cwd fp q : List Char)
    (hres : validate_path fp libroot cwd = .ok q)
    (hmiss : fsExists fs q = false) :
    (ConnectionHandler.handle_delete fs libroot cwd fp).1.header.status_code = 500 ∧
      (ConnectionHandler.handle_delete fs libroot cwd fp).2 = fs := by
  have hdel : FileOperationHandler.delete_file fs q = (.error .fileNotFound, fs) := by
    unfold FileOperationHandler.delete_file
    rw [if_pos (by simp [hmiss])]
  rw [handle_delete_res_ok fs libroot cwd fp q hres, hdel]
  exact ⟨rfl, rfl⟩

/-- Filesystem for the C5 scenario: just the library root directory. -/
def fs5 : Fs := [("/lib".data, ⟨true, [], 0, 0⟩)]

/-- C5 counterexample: deleting the non-existent `ghost` under `/lib`
answers 500, and 500 ≠ 404 as the claim would have it; the filesystem is
unchanged. -/
theorem delete_missing_returns_500_not_404 :
    (ConnectionHandler.handle_delete fs5 ("/lib".data) ("/".data) ("ghost".data)).1.header.status_code
        = 500 ∧
      (ConnectionHandler.handle_delete fs5 ("/lib".data) ("/".data) ("ghost".data)).2 = fs5 ∧
      (500 : Int) ≠ 404 :=
  ⟨by rfl, by rfl, by decide⟩

/-- Witness for `handle_delete_missing_500` at the concrete scenario. -/
theorem handle_delete_missing_500_witness :
    validate_path ("ghost".data) ("/lib".data) ("/".data) = .ok ("/lib/ghost".data) ∧
      fsExists fs5 ("/lib/ghost".data) = false ∧
      ((ConnectionHandler.handle_delete fs5 ("/lib".data) ("/".data) ("ghost".data)).1.header.status_code
          = 500 ∧
        (ConnectionHandler.handle_delete fs5 ("/lib".data) ("/".data) ("ghost".data)).2 = fs5) :=
  ⟨by rfl, by rfl, handle_delete_missing_500 fs5 ("/lib".data) ("/".data) ("ghost".data)
    ("/lib/ghost".data) (by rfl) (by rfl)⟩

/-!
Session manager (`fileharbor/server/session_manager.py`).  Python dicts
become association lists (`alGet`/`alSet`/`alDel`), the `locked_files` set
a duplicate-free list, timestamps opaque integers supplied by the caller
(`time.time()`).  All registry methods execute under one reentrant lock in
the source, so the model is a sequential state machine.
-/

/-- `TransferState` from `fileharbor/server/session_manager.py`. -/
structure TransferState where
  filepath : List Char
  file_size : Nat
  checksum : List Char
  bytes_transferred : Nat
  chunk_size : Nat
  last_activity : Int
deriving DecidableEq, Repr

/-- `ClientSession` from `fileharbor/server/session_manager.py`. -/
structure ClientSession where
  session_id : List Char
  client_id : List Char
  library_id : List Char
  connected_at : Int
  last_activity : Int
  active_transfers : List (List Char × TransferState)
  locked_files : List (List Char)
deriving DecidableEq, Repr

/-- The `SessionManager` mutable state. -/
structure SMState where
  sessions : List (List Char × ClientSession)
  library_locks : List (List Char × List Char)
  file_locks : List (List Char × List Char)
deriving DecidableEq, Repr

/-- The empty registry. -/
def smInit : SMState := ⟨[], [], []⟩

/-- `SessionManager.create_session`: reject (`ValueError`, surfaced as
`LibraryInUse`) when the library lock is held by a different client;
otherwise create the session and install the lock. -/
def create_session (st : SMState) (session_id client_id library_id : List Char)
    (now : Int) : Except Unit SMState :=
  match alGet st.library_locks library_id with
  | some locked_by =>
    if locked_by ≠ client_id then .error ()
    else
      .ok { st with
        sessions := alSet st.sessions session_id
          ⟨session_id, client_id, library_id, now, now, [], []⟩,
        library_locks := alSet st.library_locks library_id client_id }
  | none =>
    .ok { st with
      sessions := alSet st.sessions session_id
        ⟨session_id, client_id, library_id, now, now, [], []⟩,
      library_locks := alSet st.library_locks library_id client_id }

/-- `SessionManager.unlock_file`: release the lock when held by this
session and discard the path from the session's locked set. -/
def unlock_file (st : SMState) (session_id filepath : List Char) : SMState :=
  let file_locks :=
    match alGet st.file_locks filepath with
    | some owner => if owner = session_id then alDel st.file_locks filepath else st.file_locks
    | none => st.file_locks
  let sessions :=
    match alGet st.sessions session_id with
    | some s => alSet st.sessions session_id
        { s with locked_files := s.locked_files.filter (fun p => decide (p ≠ filepath)) }
    | none => st.sessions
  ⟨sessions, st.library_locks, file_locks⟩

/-- `SessionManager.lock_file`: `True` when acquired or already held by
this session, `False` when held by another session. -/
def lock_file (st : SMState) (session_id filepath : List Char) : Bool × SMState :=
  match alGet st.file_locks filepath with
  | some owner => (owner = session_id, st)
  | none =>
    let file_locks := alSet st.file_locks filepath session_id
    let sessions :=
      match alGet st.sessions session_id with
      | some s => alSet st.sessions session_id
          { s with locked_files :=
              if filepath ∈ s.locked_files then s.locked_files
              else s.locked_files ++ [filepath] }
      | none => st.sessions
    (true, ⟨sessions, st.library_locks, file_locks⟩)

/-- `SessionManager.is_file_locked`. -/
def is_file_locked (st : SMState) (filepath : List Char) : Bool :=
  (alGet st.file_locks filepath).isSome

/-- `SessionManager.close_session`: release the library lock when it
records this session's client, release all file locks, drop the session. -/
def close_session (st : SMState) (session_id : List Char) : SMState :=
  match alGet st.sessions session_id with
  | none => st
  | some session =>
    let library_locks :=
      match alGet st.library_locks session.library_id with
      | some c =>
        if c = session.client_id then alDel st.library_locks session.library_id
        else st.library_locks
      | none => st.library_locks
    let st1 : SMState := ⟨st.sessions, library_locks, st.file_locks⟩
    let st2 := session.locked_files.foldl (fun s p => unlock_file s session_id p) st1
    ⟨alDel st2.sessions session_id, st2.library_locks, st2.file_locks⟩

/-- `SessionManager.update_session_activity`. -/
def update_session_activity (st : SMState) (session_id : List Char) (now : Int) : SMState :=
  match alGet st.sessions session_id with
  | some s => { st with sessions := alSet st.sessions session_id { s with last_activity := now } }
  | none => st

/-- `SessionManager.start_transfer` (`ValueError` when the session is
missing). -/
def start_transfer (st : SMState) (session_id filepath : List Char) (file_size : Nat)
    (checksum : List Char) (chunk_size : Nat) (resume_offset : Nat) (now : Int) :
    Except Unit SMState :=
  match alGet st.sessions session_id with
  | none => .error ()
  | some s =>
    .ok { st with sessions := alSet st.sessions session_id (
      { s with active_transfers := alSet s.active_transfers filepath (
          ⟨filepath, file_size, checksum, resume_offset, chunk_size, now⟩ : TransferState) }) }

/-- `SessionManager.complete_transfer`. -/
def complete_transfer (st : SMState) (session_id filepath : List Char) : SMState :=
  match alGet st.sessions session_id with
  | some s =>
    if (alGet s.active_transfers filepath).isSome then
      { st with sessions := alSet st.sessions session_id (
          { s with active_transfers := alDel s.active_transfers filepath }) }
    else st
  | none => st

/-- `SessionManager.get_transfer_state`. -/
def get_transfer_state (st : SMState) (session_id filepath : List Char) :
    Option TransferState :=
  match alGet st.sessions session_id with
  | some s => alGet s.active_transfers filepath
  | none => none

/-- `ClientSession.is_idle`. -/
def session_is_idle (s : ClientSession) (timeout now : Int) : Bool :=
  decide (timeout < now - s.last_activity)

/-- `SessionManager.cleanup_idle_sessions`: snapshot the idle sessions,
then close each. -/
def cleanup_idle_sessions (st : SMState) (timeout now : Int) : SMState :=
  let idle := (st.sessions.filter (fun kv => session_is_idle kv.2 timeout now)).map Prod.fst
  idle.foldl close_session st

/-- One registry operation, for reachability over operation sequences. -/
inductive SMOp where
  | createSession (session_id client_id library_id : List Char) (now : Int)
  | closeSession (session_id : List Char)
  | lockFile (session_id filepath : List Char)
  | unlockFile (session_id filepath : List Char)
  | updateActivity (session_id : List Char) (now : Int)
  | startTransfer (session_id filepath : List Char) (file_size : Nat)
      (checksum : List Char) (chunk_size : Nat) (resume_offset : Nat) (now : Int)
  | completeTransfer (session_id filepath : List Char)
  | cleanupIdle (timeout now : Int)
deriving Repr

/-- Apply one operation (a failing `create_session`/`start_transfer`
raises and leaves the state unchanged). -/
def smStep (st : SMState) : SMOp → SMState
  | .createSession sid cid lid now =>
    match create_session st sid cid lid now with
    | .ok st' => st'
    | .error _ => st
  | .closeSession sid => close_session st sid
  | .lockFile sid p => (lock_file st sid p).2
  | .unlockFile sid p => unlock_file st sid p
  | .updateActivity sid now => update_session_activity st sid now
  | .startTransfer sid p size ck cs off now =>
    match start_transfer st sid p size ck cs off now with
    | .ok st' => st'
    | .error _ => st
  | .completeTransfer sid p => complete_transfer st sid p
  | .cleanupIdle timeout now => cleanup_idle_sessions st timeout now

/-- The registry state after a sequence of operations from the empty
registry. -/
def smRun (ops : List SMOp) : SMState :=
  ops.foldl smStep smInit

/-- Duplicate-free keys: the dict discipline of the Python maps. -/
def keysNodup {α : Type} (m : List (List Char × α)) : Prop :=
  (m.map Prod.fst).Nodup

theorem alGet_none_iff {α : Type} (m : List (List Char × α)) (k : List Char) :
    alGet m k = none ↔ k ∉ m.map Prod.fst := by
  induction m with
  | nil => simp [alGet]
  | cons kv rest ih =>
    rw [alGet, List.map_cons, List.mem_cons]
    by_cases hk : kv.1 = k
    · rw [if_pos hk]
      constructor
      · intro hco
        exact Option.noConfusion hco
      · intro hco
        exact absurd (Or.inl hk.symm) hco
    · rw [if_neg hk, ih]
      constructor
      · intro hni hco
        rcases hco with hco | hco
        · exact hk hco.symm
        · exact hni hco
      · intro hni hco
        exact hni (Or.inr hco)

theorem keys_alSet {α : Type} (m : List (List Char × α)) (k : List Char) (v : α) :
    (alSet m k v).map Prod.fst =
      if (alGet m k).isSome then m.map Prod.fst else m.map Prod.fst ++ [k] := by
  unfold alSet
  split
  · next h =>
    rw [List.map_map]
    refine List.map_congr_left ?_
    intro kv _
    show (if kv.1 = k then (k, v) else kv).1 = kv.1
    split
    · next hh => exact hh.symm
    · rfl
  · next h =>
    simp

theorem alSet_keysNodup {α : Type} (m : List (List Char × α)) (k : List Char) (v : α)
    (h : keysNodup m) : keysNodup (alSet m k v) := by
  unfold keysNodup
  rw [keys_alSet]
  split
  · exact h
  · next hnone =>
    have hk : k ∉ m.map Prod.fst := by
      rw [← alGet_none_iff]
      rcases hget : alGet m k with _ | v'
      · rfl
      · rw [hget] at hnone
        simp at hnone
    exact h.append (List.nodup_singleton k)
      (fun a ha hb => hk ((List.mem_singleton.mp hb) ▸ ha))

theorem alDel_keysNodup {α : Type} (m : List (List Char × α)) (k : List Char)
    (h : keysNodup m) : keysNodup (alDel m k) := by
  unfold keysNodup alDel
  exact ((List.filter_sublist m).map Prod.fst).nodup h

/-- C4's invariant: each of the two lock maps has duplicate-free keys. -/
def LocksInv (st : SMState) : Prop :=
  keysNodup st.library_locks ∧ keysNodup st.file_locks

theorem unlock_file_library_locks (st : SMState) (sid p : List Char) :
    (unlock_file st sid p).library_locks = st.library_locks := rfl

theorem unlock_foldl_library_locks (l : List (List Char)) (sid : List Char) :
    ∀ st : SMState,
      (l.foldl (fun s p => unlock_file s sid p) st).library_locks = st.library_locks := by
  induction l with
  | nil => intro st; rfl
  | cons p ps ih =>
    intro st
    rw [List.foldl_cons, ih, unlock_file_library_locks]

theorem unlock_file_inv (st : SMState) (sid p : List Char) (h : LocksInv st) :
    LocksInv (unlock_file st sid p) := by
  unfold unlock_file
  refine ⟨h.1, ?_⟩
  show keysNodup (match alGet st.file_locks p with
    | some owner => if owner = sid then alDel st.file_locks p else st.file_locks
    | none => st.file_locks)
  rcases alGet st.file_locks p with _ | owner
  · exact h.2
  · by_cases ho : owner = sid
    · simpa [ho] using alDel_keysNodup st.file_locks p h.2
    · simpa [ho] using h.2

theorem unlock_foldl_inv (l : List (List Char)) (sid : List Char) :
    ∀ st : SMState, LocksInv st →
      LocksInv (l.foldl (fun s p => unlock_file s sid p) st) := by
  induction l with
  | nil => intro st h; exact h
  | cons p ps ih =>
    intro st h
    rw [List.foldl_cons]
    exact ih _ (unlock_file_inv st sid p h)

theorem create_session_none (st : SMState) (sid cid lid : List Char) (now : Int)
    (hget : alGet st.library_locks lid = none) :
    create_session st sid cid lid now =
      .ok { st with
        sessions := alSet st.sessions sid ⟨sid, cid, lid, now, now, [], []⟩,
        library_locks := alSet st.library_locks lid cid } := by
  unfold create_session
  rw [hget]

theorem create_session_some (st : SMState) (sid cid lid : List Char) (now : Int)
    (locked_by : List Char) (hget : alGet st.library_locks lid = some locked_by) :
    create_session st sid cid lid now =
      if locked_by ≠ cid then .error ()
      else .ok { st with
        sessions := alSet st.sessions sid ⟨sid, cid, lid, now, now, [], []⟩,
        library_locks := alSet st.library_locks lid cid } := by
  unfold create_session
  rw [hget]

theorem create_session_inv (st : SMState) (sid cid lid : List Char) (now : Int)
    (st' : SMState) (h : LocksInv st) (hok : create_session st sid cid lid now = .ok st') :
    LocksInv st' := by
  rcases hget : alGet st.library_locks lid with _ | locked_by
  · rw [create_session_none st sid cid lid now hget] at hok
    simp only [Except.ok.injEq] at hok
    subst hok
    exact ⟨alSet_keysNodup _ _ _ h.1, h.2⟩
  · rw [create_session_some st sid cid lid now locked_by hget] at hok
    by_cases hlb : locked_by = cid
    · rw [if_neg (fun hne => hne hlb)] at hok
      simp only [Except.ok.injEq] at hok
      subst hok
      exact ⟨alSet_keysNodup _ _ _ h.1, h.2⟩
    · rw [if_pos hlb] at hok
      cases hok

theorem close_session_none (st : SMState) (sid : List Char)
    (hget : alGet st.sessions sid = none) : close_session st sid = st := by
  unfold close_session
  rw [hget]

theorem close_session_some (st : SMState) (sid : List Char) (session : ClientSession)
    (hget : alGet st.sessions sid = some session) :
    close_session st sid =
      (let library_locks :=
        match alGet st.library_locks session.library_id with
        | some c =>
          if c = session.client_id then alDel st.library_locks session.library_id
          else st.library_locks
        | none => st.library_locks
      let st1 : SMState := ⟨st.sessions, library_locks, st.file_locks⟩
      let st2 := session.locked_files.foldl (fun s p => unlock_file s sid p) st1
      (⟨alDel st2.sessions sid, st2.library_locks, st2.file_locks⟩ : SMState)) := by
  unfold close_session
  rw [hget]

theorem close_session_inv (st : SMState) (sid : List Char) (h : LocksInv st) :
    LocksInv (close_session st sid) := by
  rcases hget : alGet st.sessions sid with _ | session
  · rw [close_session_none st sid hget]
    exact h
  · rw [close_session_some st sid session hget]
    have hlib : keysNodup (match alGet st.library_locks session.library_id with
        | some c =>
          if c = session.client_id then alDel st.library_locks session.library_id
          else st.library_locks
        | none => st.library_locks) := by
      rcases alGet st.library_locks session.library_id with _ | c
      · exact h.1
      · by_cases hc : c = session.client_id
        · simpa [hc] using alDel_keysNodup _ _ h.1
        · simpa [hc] using h.1
    have h2 := unlock_foldl_inv session.locked_files sid
      (⟨st.sessions,
        (match alGet st.library_locks session.library_id with
         | some c =>
           if c = session.client_id then alDel st.library_locks session.library_id
           else st.library_locks
         | none => st.library_locks),
        st.file_locks⟩ : SMState) ⟨hlib, h.2⟩
    exact ⟨h2.1, h2.2⟩

theorem lock_file_inv (st : SMState) (sid p : List Char) (h : LocksInv st) :
    LocksInv (lock_file st sid p).2 := by
  unfold lock_file
  rcases alGet st.file_locks p with _ | owner
  · exact ⟨h.1, alSet_keysNodup _ _ _ h.2⟩
  · exact h

theorem cleanup_foldl_inv (l : List (List Char)) :
    ∀ st : SMState, LocksInv st → LocksInv (l.foldl close_session st) := by
  induction l with
  | nil => intro st h; exact h
  | cons sid rest ih =>
    intro st h
    rw [List.foldl_cons]
    exact ih _ (close_session_inv st sid h)

theorem smStep_inv (st : SMState) (op : SMOp) (h : LocksInv st) :
    LocksInv (smStep st op) := by
  cases op with
  | createSession sid cid lid now =>
    show LocksInv (match create_session st sid cid lid now with
      | .ok st' => st'
      | .error _ => st)
    rcases hc : create_session st sid cid lid now with _ | st'
    · exact h
    · exact create_session_inv st sid cid lid now st' h hc
  | closeSession sid => exact close_session_inv st sid h
  | lockFile sid p => exact lock_file_inv st sid p h
  | unlockFile sid p => exact unlock_file_inv st sid p h
  | updateActivity sid now =>
    show LocksInv (update_session_activity st sid now)
    unfold update_session_activity
    rcases alGet st.sessions sid with _ | s
    · exact h
    · exact h
  | startTransfer sid p size ck cs off now =>
    show LocksInv (match start_transfer st sid p size ck cs off now with
      | .ok st' => st'
      | .error _ => st)
    unfold start_transfer
    rcases alGet st.sessions sid with _ | s
    · exact h
    · exact h
  | completeTransfer sid p =>
    show LocksInv (complete_transfer st sid p)
    rcases hget : alGet st.sessions sid with _ | s
    · simp only [complete_transfer, hget]
      exact h
    · simp only [complete_transfer, hget]
      split
      · exact h
      · exact h
  | cleanupIdle timeout now =>
    show LocksInv (cleanup_idle_sessions st timeout now)
    unfold cleanup_idle_sessions
    exact cleanup_foldl_inv _ st h

theorem smRun_inv (ops : List SMOp) : LocksInv (smRun ops) := by
  unfold smRun
  have hgen : ∀ (l : List SMOp) (st : SMState), LocksInv st → LocksInv (l.foldl smStep st) := by
    intro l
    induction l with
    | nil => intro st h; exact h
    | cons op rest ih =>
      intro st h
      rw [List.foldl_cons]
      exact ih _ (smStep_inv st op h)
  refine hgen ops smInit ⟨?_, ?_⟩ <;> simp [keysNodup, smInit]

theorem keysNodup_unique_val {α : Type} (m : List (List Char × α)) (h : keysNodup m)
    (k : List Char) (v1 v2 : α) (h1 : (k, v1) ∈ m) (h2 : (k, v2) ∈ m) : v1 = v2 := by
  induction m with
  | nil => exact absurd h1 (List.not_mem_nil _)
  | cons kv rest ih =>
    have hnd : kv.1 ∉ rest.map Prod.fst ∧ (rest.map Prod.fst).Nodup := by
      have h' := h
      unfold keysNodup at h'
      rw [List.map_cons, List.nodup_cons] at h'
      exact h'
    rcases List.mem_cons.mp h1 with e1 | e1 <;> rcases List.mem_cons.mp h2 with e2 | e2
    · have he : (k, v1) = (k, v2) := e1.trans e2.symm
      exact congrArg Prod.snd he
    · exfalso
      apply hnd.1
      have hk : kv.1 = k := congrArg Prod.fst e1.symm
      rw [hk]
      exact List.mem_map_of_mem Prod.fst e2
    · exfalso
      apply hnd.1
      have hk : kv.1 = k := congrArg Prod.fst e2.symm
      rw [hk]
      exact List.mem_map_of_mem Prod.fst e1
    · exact ih hnd.2 e1 e2

/-- C4: in every state reachable by any sequence of SessionManager
operations from the empty registry, each library_id is locked by at most
one client and each abs_path is file-locked by at most one session;
`create_session` (the HANDSHAKE path) rejects with `ValueError` (surfaced
as `LibraryInUse`) when the library lock is held by a different
client_id, otherwise it succeeds and installs the lock; and
`close_session` removes the library lock when it records the closing
session's client. -/
theorem session_manager_exclusion :
    (∀ (ops : List SMOp) (lid c1 c2 : List Char),
        (lid, c1) ∈ (smRun ops).library_locks →
        (lid, c2) ∈ (smRun ops).library_locks → c1 = c2)
    ∧ (∀ (ops : List SMOp) (p s1 s2 : List Char),
        (p, s1) ∈ (smRun ops).file_locks →
        (p, s2) ∈ (smRun ops).file_locks → s1 = s2)
    ∧ (∀ (st : SMState) (sid cid lid : List Char) (now : Int) (locked_by : List Char),
        alGet st.library_locks lid = some locked_by → locked_by ≠ cid →
        create_session st sid cid lid now = .error ())
    ∧ (∀ (st : SMState) (sid cid lid : List Char) (now : Int),
        (∀ locked_by, alGet st.library_locks lid = some locked_by → locked_by = cid) →
        ∃ st', create_session st sid cid lid now = Except.ok st' ∧
          alGet st'.library_locks lid = some cid)
    ∧ (∀ (st : SMState) (sid : List Char) (session : ClientSession),
        alGet st.sessions sid = some session →
        alGet st.library_locks session.library_id = some session.client_id →
        alGet (close_session st sid).library_locks session.library_id = none) := by
  refine ⟨?_, ?_, ?_, ?_, ?_⟩
  · intro ops lid c1 c2 h1 h2
    exact keysNodup_unique_val _ (smRun_inv ops).1 lid c1 c2 h1 h2
  · intro ops p s1 s2 h1 h2
    exact keysNodup_unique_val _ (smRun_inv ops).2 p s1 s2 h1 h2
  · intro st sid cid lid now locked_by hget hne
    rw [create_session_some st sid cid lid now locked_by hget, if_pos hne]
  · intro st sid cid lid now hcond
    rcases hget : alGet st.library_locks lid with _ | locked_by
    · exact ⟨_, create_session_none st sid cid lid now hget, alGet_set_self _ _ _⟩
    · have hcid : locked_by = cid := hcond locked_by hget
      refine ⟨{ st with
          sessions := alSet st.sessions sid ⟨sid, cid, lid, now, now, [], []⟩,
          library_locks := alSet st.library_locks lid cid }, ?_, alGet_set_self _ _ _⟩
      rw [create_session_some st sid cid lid now locked_by hget,
        if_neg (fun hne => hne hcid)]
  · intro st sid session hsess hlock
    rw [close_session_some st sid session hsess]
    simp only [unlock_foldl_library_locks]
    simp only [hlock]
    rw [if_pos trivial]
    exact alGet_del_self _ _

theorem session_manager_exclusion_witness :
    (("cA".data : List Char) = "cA".data)
    ∧ (("s1".data : List Char) = "s1".data)
    ∧ create_session (smRun [SMOp.createSession ("s1".data) ("cA".data) ("L".data) 0])
        ("s2".data) ("cB".data) ("L".data) 1 = .error ()
    ∧ (∃ st', create_session smInit ("s1".data) ("cA".data) ("L".data) 0 = Except.ok st' ∧
        alGet st'.library_locks ("L".data) = some ("cA".data))
    ∧ alGet (close_session (smRun [SMOp.createSession ("s1".data) ("cA".data) ("L".data) 0])
        ("s1".data)).library_locks ("L".data) = none :=
  ⟨session_manager_exclusion.1 [SMOp.createSession ("s1".data) ("cA".data) ("L".data) 0]
      ("L".data) ("cA".data) ("cA".data) (by decide) (by decide),
   session_manager_exclusion.2.1 [SMOp.createSession ("s1".data) ("cA".data) ("L".data) 0,
      SMOp.lockFile ("s1".data) ("/f".data)] ("/f".data) ("s1".data) ("s1".data)
      (by decide) (by decide),
   session_manager_exclusion.2.2.1 _ ("s2".data) ("cB".data) ("L".data) 1 ("cA".data)
      (by rfl) (by decide),
   session_manager_exclusion.2.2.2.1 smInit ("s1".data) ("cA".data) ("L".data) 0
      (fun locked_by hco => Option.noConfusion hco),
   session_manager_exclusion.2.2.2.2 _ ("s1".data)
      ⟨"s1".data, "cA".data, "L".data, 0, 0, [], []⟩ (by rfl) (by rfl)⟩

/-!
The PUT_START / PUT_COMPLETE handlers
(`fileharbor/server/connection_handler.py`), over the filesystem and the
session-manager registry together.  `_handle_put_start` checks
`is_file_locked` (presence only, regardless of holder) BEFORE `lock_file`
and `start_upload`; `_handle_put_complete` calls `complete_transfer` and
`unlock_file` only after `complete_upload` returns, so a raising
`complete_upload` leaves the registry — including the file lock —
untouched.
-/

/-- The body of `_handle_put_start` after `resolve_path` returned
`abs_path`: locked → 423 and stop; else lock, `start_upload` (any raise →
500 with the lock left in place), `start_transfer`, 200. -/
def put_start_resolved (fs : Fs) (sm : SMState) (session_id abs_path : List Char)
    (file_size : Nat) (checksum : List Char) (chunk_size : Nat) (resume : Bool)
    (now : Int) : Message × Fs × SMState :=
  if is_file_locked sm abs_path then
    (create_error_response CMD_PUT_START ("File is locked".data) 423, fs, sm)
  else
    let sm1 := (lock_file sm session_id abs_path).2
    match FileOperationHandler.start_upload fs abs_path file_size checksum resume with
    | (.error e, fs') => (create_error_response CMD_PUT_START (fileOpErrText e) 500, fs', sm1)
    | (.ok (temp_path, resume_offset), fs') =>
      match start_transfer sm1 session_id abs_path file_size checksum chunk_size
          resume_offset now with
      | .error _ =>
        (create_error_response CMD_PUT_START ("Session not found".data) 500, fs', sm1)
      | .ok sm2 =>
        (create_response CMD_PUT_START 200 (Json.obj
          [("temp_filepath".data, Json.str temp_path),
           ("resume_offset".data, Json.num resume_offset)]), fs', sm2)

/-- `ConnectionHandler._handle_put_start`: `PathTraversalError` → 400,
any other exception → 500, else the resolved body. -/
def handle_put_start (fs : Fs) (sm : SMState) (libroot cwd session_id filepath : List Char)
    (file_size : Nat) (checksum : List Char) (chunk_size : Nat) (resume : Bool)
    (now : Int) : Message × Fs × SMState :=
  match validate_path filepath libroot cwd with
  | .error .pathTraversal =>
    (create_error_response CMD_PUT_START (pathErrText .pathTraversal) 400, fs, sm)
  | .error .invalidPath =>
    (create_error_response CMD_PUT_START (pathErrText .invalidPath) 500, fs, sm)
  | .ok abs_path =>
    put_start_resolved fs sm session_id abs_path file_size checksum chunk_size resume now

/-- The body of `_handle_put_complete` after `resolve_path`: a raising
`complete_upload` → 500 with `complete_transfer`/`unlock_file` never
reached (the registry is unchanged); on success the transfer is cleaned
up and the file unlocked. -/
def put_complete_resolved (fs : Fs) (sm : SMState) (session_id abs_path temp_filepath : List Char)
    (expected_checksum : List Char) (modified_time : Option Int) (crossDevice : Bool) :
    Message × Fs × SMState :=
  match FileOperationHandler.complete_upload fs temp_filepath abs_path expected_checksum
      modified_time crossDevice with
  | (.error e, fs') => (create_error_response CMD_PUT_COMPLETE (fileOpErrText e) 500, fs', sm)
  | (.ok _, fs') =>
    let sm1 := complete_transfer sm session_id abs_path
    let sm2 := unlock_file sm1 session_id abs_path
    (create_response CMD_PUT_COMPLETE 200 (Json.obj []), fs', sm2)

/-- `ConnectionHandler._handle_put_complete`: every exception → 500. -/
def handle_put_complete (fs : Fs) (sm : SMState)
    (libroot cwd session_id filepath temp_filepath : List Char)
    (expected_checksum : List Char) (modified_time : Option Int) (crossDevice : Bool) :
    Message × Fs × SMState :=
  match validate_path filepath libroot cwd with
  | .error e => (create_error_response CMD_PUT_COMPLETE (pathErrText e) 500, fs, sm)
  | .ok abs_path =>
    put_complete_resolved fs sm session_id abs_path temp_filepath expected_checksum
      modified_time crossDevice

theorem handle_put_start_resolves (fs : Fs) (sm : SMState)
    (libroot cwd sid fp : List Char) (size : Nat) (ck : List Char) (cs : Nat)
    (resume : Bool) (now : Int) (ab : List Char)
    (h : validate_path fp libroot cwd = .ok ab) :
    handle_put_start fs sm libroot cwd sid fp size ck cs resume now =
      put_start_resolved fs sm sid ab size ck cs resume now := by
  unfold handle_put_start
  rw [h]

theorem put_start_resolved_locked (fs : Fs) (sm : SMState) (sid ab : List Char)
    (size : Nat) (ck : List Char) (cs : Nat) (resume : Bool) (now : Int)
    (hlock : is_file_locked sm ab = true) :
    put_start_resolved fs sm sid ab size ck cs resume now =
      (create_error_response CMD_PUT_START ("File is locked".data) 423, fs, sm) := by
  unfold put_start_resolved
  rw [if_pos hlock]

theorem handle_put_complete_resolves (fs : Fs) (sm : SMState)
    (libroot cwd sid fp tfp ck : List Char) (mt : Option Int) (cd : Bool)
    (ab : List Char) (h : validate_path fp libroot cwd = .ok ab) :
    handle_put_complete fs sm libroot cwd sid fp tfp ck mt cd =
      put_complete_resolved fs sm sid ab tfp ck mt cd := by
  unfold handle_put_complete
  rw [h]

theorem put_complete_resolved_error (fs fs' : Fs) (sm : SMState)
    (sid ab tfp ck : List Char) (mt : Option Int) (cd : Bool) (e : FileOpErr)
    (hcomp : FileOperationHandler.complete_upload fs tfp ab ck mt cd = (.error e, fs')) :
    put_complete_resolved fs sm sid ab tfp ck mt cd =
      (create_error_response CMD_PUT_COMPLETE (fileOpErrText e) 500, fs', sm) := by
  unfold put_complete_resolved
  rw [hcomp]

/-- C10: a PUT_START naming a path present in `file_locks` is answered
423 with `start_upload` never invoked (filesystem and registry returned
unchanged), regardless of which session holds the lock — in particular
when the holder is the requester itself; a PUT_COMPLETE whose
`complete_upload` raises answers 500 and leaves the registry (hence the
file lock) unchanged; consequently the same session's repeated PUT_START
for that path after a failed PUT_COMPLETE is again answered 423. -/
theorem put_start_locked_423 :
    (∀ (fs : Fs) (sm : SMState) (libroot cwd sid fp : List Char) (size : Nat)
        (ck : List Char) (cs : Nat) (resume : Bool) (now : Int) (ab : List Char),
        validate_path fp libroot cwd = .ok ab →
        is_file_locked sm ab = true →
        handle_put_start fs sm libroot cwd sid fp size ck cs resume now =
          (create_error_response CMD_PUT_START ("File is locked".data) 423, fs, sm))
    ∧ (∀ (fs fs' : Fs) (sm : SMState) (libroot cwd sid fp tfp ck : List Char)
        (mt : Option Int) (cd : Bool) (ab : List Char) (e : FileOpErr),
        validate_path fp libroot cwd = .ok ab →
        FileOperationHandler.complete_upload fs tfp ab ck mt cd = (.error e, fs') →
        handle_put_complete fs sm libroot cwd sid fp tfp ck mt cd =
          (create_error_response CMD_PUT_COMPLETE (fileOpErrText e) 500, fs', sm))
    ∧ (∀ (fs fs' : Fs) (sm : SMState) (libroot cwd sid fp tfp ck : List Char)
        (mt : Option Int) (cd : Bool) (size : Nat) (cs : Nat) (resume : Bool)
        (now : Int) (ab : List Char) (e : FileOpErr),
        validate_path fp libroot cwd = .ok ab →
        is_file_locked sm ab = true →
        FileOperationHandler.complete_upload fs tfp ab ck mt cd = (.error e, fs') →
        (handle_put_start
            (handle_put_complete fs sm libroot cwd sid fp tfp ck mt cd).2.1
            (handle_put_complete fs sm libroot cwd sid fp tfp ck mt cd).2.2
            libroot cwd sid fp size ck cs resume now).1.header.status_code = 423) := by
  refine ⟨?_, ?_, ?_⟩
  · intro fs sm libroot cwd sid fp size ck cs resume now ab h hlock
    rw [handle_put_start_resolves fs sm libroot cwd sid fp size ck cs resume now ab h,
      put_start_resolved_locked fs sm sid ab size ck cs resume now hlock]
  · intro fs fs' sm libroot cwd sid fp tfp ck mt cd ab e h hcomp
    rw [handle_put_complete_resolves fs sm libroot cwd sid fp tfp ck mt cd ab h,
      put_complete_resolved_error fs fs' sm sid ab tfp ck mt cd e hcomp]
  · intro fs fs' sm libroot cwd sid fp tfp ck mt cd size cs resume now ab e h hlock hcomp
    have hpc : handle_put_complete fs sm libroot cwd sid fp tfp ck mt cd =
        (create_error_response CMD_PUT_COMPLETE (fileOpErrText e) 500, fs', sm) := by
      rw [handle_put_complete_resolves fs sm libroot cwd sid fp tfp ck mt cd ab h,
        put_complete_resolved_error fs fs' sm sid ab tfp ck mt cd e hcomp]
    rw [hpc]
    show (handle_put_start fs' sm libroot cwd sid fp size ck cs resume now).1.header.status_code
      = 423
    rw [handle_put_start_resolves fs' sm libroot cwd sid fp size ck cs resume now ab h,
      put_start_resolved_locked fs' sm sid ab size ck cs resume now hlock]
    rfl

/-- Filesystem for the C10 scenario: the library root and a temp file
whose content `"a"` cannot hash to the expected checksum. -/
def fs10 : Fs :=
  [("/lib".data, ⟨true, [], 0, 0⟩), ("/lib/.fharbor_tmp_f".data, ⟨false, [97], 0, 0⟩)]

/-- Registry for the C10 scenario: session `s1` itself holds the file
lock on `/lib/f`. -/
def sm10 : SMState :=
  ⟨[("s1".data, ⟨"s1".data, "cA".data, "L".data, 0, 0, [], ["/lib/f".data]⟩)],
   [("L".data, "cA".data)],
   [("/lib/f".data, "s1".data)]⟩

/-- An expected checksum no file hashes to (not a hex digest shape). -/
def ck10w : List Char := List.replicate 64 'a'

theorem put_start_locked_423_witness :
    handle_put_start fs10 sm10 ("/lib".data) ("/".data) ("s1".data) ("f".data)
        1 ck10w 4 false 0 =
      (create_error_response CMD_PUT_START ("File is locked".data) 423, fs10, sm10)
    ∧ handle_put_complete fs10 sm10 ("/lib".data) ("/".data) ("s1".data) ("f".data)
        ("/lib/.fharbor_tmp_f".data) ck10w none false =
      (create_error_response CMD_PUT_COMPLETE (fileOpErrText .checksumMismatch) 500, fs10, sm10)
    ∧ (handle_put_start
        (handle_put_complete fs10 sm10 ("/lib".data) ("/".data) ("s1".data) ("f".data)
          ("/lib/.fharbor_tmp_f".data) ck10w none false).2.1
        (handle_put_complete fs10 sm10 ("/lib".data) ("/".data) ("s1".data) ("f".data)
          ("/lib/.fharbor_tmp_f".data) ck10w none false).2.2
        ("/lib".data) ("/".data) ("s1".data) ("f".data) 1 ck10w 4 false 0).1.header.status_code
      = 423 :=
  ⟨put_start_locked_423.1 fs10 sm10 ("/lib".data) ("/".data) ("s1".data) ("f".data)
      1 ck10w 4 false 0 ("/lib/f".data) (by rfl) (by rfl),
   put_start_locked_423.2.1 fs10 fs10 sm10 ("/lib".data) ("/".data) ("s1".data) ("f".data)
      ("/lib/.fharbor_tmp_f".data) ck10w none false ("/lib/f".data) .checksumMismatch
      (by rfl) (by rfl),
   put_start_locked_423.2.2 fs10 fs10 sm10 ("/lib".data) ("/".data) ("s1".data) ("f".data)
      ("/lib/.fharbor_tmp_f".data) ck10w none false 1 4 false 0 ("/lib/f".data)
      .checksumMismatch (by rfl) (by rfl) (by rfl)⟩

/-!
Client retry wrappers (`fileharbor/client/transfer_manager.py`).  One
`upload_file`/`download_file` invocation either returns, raises
`ChecksumMismatchError`, or raises some other exception; a run of the
wrapper is determined by the sequence of outcomes the successive
invocations would produce.  `upload_with_retry` catches EVERY exception
(`except Exception`) and retries with `resume=True`; `download_with_retry`
re-raises `ChecksumMismatchError` before its blanket handler.
-/

/-- Outcome of one `upload_file`/`download_file` invocation. -/
inductive TransferOutcome where
  | success
  | checksumMismatch
  | otherFailure
deriving Repr, DecidableEq

/-- What a wrapper run produces: a return, a propagated
`ChecksumMismatchError`, or a final `FileTransferError`; each records how
many invocations were made. -/
inductive RetryResult where
  | ok (attempts : Nat)
  | checksumError (attempts : Nat)
  | transferError (attempts : Nat)
deriving Repr, DecidableEq

/-- The `for attempt in range(max_retries)` loop of `upload_with_retry`:
any exception is caught and the next attempt made. -/
def upLoop : List TransferOutcome → Nat → RetryResult
  | [], done => .transferError done
  | o :: rest, done =>
    match o with
    | .success => .ok (done + 1)
    | .checksumMismatch => upLoop rest (done + 1)
    | .otherFailure => upLoop rest (done + 1)

/-- The loop of `download_with_retry`: `except ChecksumMismatchError:
raise` fires before the blanket handler. -/
def dlLoop : List TransferOutcome → Nat → RetryResult
  | [], done => .transferError done
  | o :: rest, done =>
    match o with
    | .success => .ok (done + 1)
    | .checksumMismatch => .checksumError (done + 1)
    | .otherFailure => dlLoop rest (done + 1)

/-- `TransferManager.upload_with_retry` over the outcome sequence. -/
def upload_with_retry (outcomes : List TransferOutcome) (max_retries : Nat) : RetryResult :=
  upLoop (outcomes.take max_retries) 0

/-- `TransferManager.download_with_retry` over the outcome sequence. -/
def download_with_retry (outcomes : List TransferOutcome) (max_retries : Nat) : RetryResult :=
  dlLoop (outcomes.take max_retries) 0

theorem upLoop_pre (pre : List TransferOutcome) :
    ∀ (rest : List TransferOutcome) (done : Nat), (∀ o ∈ pre, o ≠ .success) →
      upLoop (pre ++ rest) done = upLoop rest (done + pre.length) := by
  induction pre with
  | nil => intro rest done _; simp
  | cons o pre' ih =>
    intro rest done h
    cases o with
    | success => exact absurd rfl (h .success (List.mem_cons_self _ _))
    | checksumMismatch =>
      rw [List.cons_append]
      show upLoop (pre' ++ rest) (done + 1) = upLoop rest (done + (pre'.length + 1))
      rw [ih rest (done + 1) (fun o ho => h o (List.mem_cons_of_mem _ ho))]
      congr 1
      omega
    | otherFailure =>
      rw [List.cons_append]
      show upLoop (pre' ++ rest) (done + 1) = upLoop rest (done + (pre'.length + 1))
      rw [ih rest (done + 1) (fun o ho => h o (List.mem_cons_of_mem _ ho))]
      congr 1
      omega

theorem dlLoop_pre (pre : List TransferOutcome) :
    ∀ (rest : List TransferOutcome) (done : Nat), (∀ o ∈ pre, o = .otherFailure) →
      dlLoop (pre ++ rest) done = dlLoop rest (done + pre.length) := by
  induction pre with
  | nil => intro rest done _; simp
  | cons o pre' ih =>
    intro rest done h
    have ho : o = .otherFailure := h o (List.mem_cons_self _ _)
    subst ho
    rw [List.cons_append]
    show dlLoop (pre' ++ rest) (done + 1) = dlLoop rest (done + (pre'.length + 1))
    rw [ih rest (done + 1) (fun o ho => h o (List.mem_cons_of_mem _ ho))]
    congr 1
    omega

theorem upLoop_all_fail (l : List TransferOutcome) :
    ∀ done : Nat, (∀ o ∈ l, o ≠ .success) →
      upLoop l done = .transferError (done + l.length) := by
  induction l with
  | nil => intro done _; simp [upLoop]
  | cons o rest ih =>
    intro done h
    cases o with
    | success => exact absurd rfl (h .success (List.mem_cons_self _ _))
    | checksumMismatch =>
      show upLoop rest (done + 1) = .transferError (done + (rest.length + 1))
      rw [ih (done + 1) (fun o ho => h o (List.mem_cons_of_mem _ ho))]
      congr 1
      omega
    | otherFailure =>
      show upLoop rest (done + 1) = .transferError (done + (rest.length + 1))
      rw [ih (done + 1) (fun o ho => h o (List.mem_cons_of_mem _ ho))]
      congr 1
      omega

/-- C7 counterexample: a first attempt failing with `ChecksumMismatchError`
IS retried by `upload_with_retry` — the loop makes a second invocation and
returns success — while `download_with_retry` surfaces it at once; the
claim says neither wrapper ever retries a checksum mismatch. -/
theorem upload_retries_checksum_mismatch :
    upload_with_retry [.checksumMismatch, .success] 3 = .ok 2
    ∧ download_with_retry [.checksumMismatch, .success] 3 = .checksumError 1 :=
  ⟨rfl, rfl⟩

/-- C7 amended: `download_with_retry` surfaces a `ChecksumMismatchError`
immediately — after any run of retried non-checksum failures, the mismatch
attempt is the last invocation regardless of the outcomes behind it — and
returns after the first success within the limit; `upload_with_retry`
re-attempts after EVERY failure, checksum mismatches included, returning
on the first success within the limit and raising `FileTransferError`
after `max_retries` failed attempts. -/
theorem retry_wrapper_behavior :
    (∀ (pre post : List TransferOutcome) (max_retries : Nat),
        (∀ o ∈ pre, o = .otherFailure) →
        pre.length < max_retries →
        download_with_retry (pre ++ .checksumMismatch :: post) max_retries =
          .checksumError (pre.length + 1))
    ∧ (∀ (pre post : List TransferOutcome) (max_retries : Nat),
        (∀ o ∈ pre, o = .otherFailure) →
        pre.length < max_retries →
        download_with_retry (pre ++ .success :: post) max_retries =
          .ok (pre.length + 1))
    ∧ (∀ (pre post : List TransferOutcome) (max_retries : Nat),
        (∀ o ∈ pre, o ≠ .success) →
        pre.length < max_retries →
        upload_with_retry (pre ++ .success :: post) max_retries =
          .ok (pre.length + 1))
    ∧ (∀ (outs : List TransferOutcome) (max_retries : Nat),
        (∀ o ∈ outs, o ≠ .success) →
        max_retries ≤ outs.length →
        upload_with_retry outs max_retries = .transferError max_retries) := by
  refine ⟨?_, ?_, ?_, ?_⟩
  · intro pre post max_retries h hlt
    unfold download_with_retry
    rw [List.take_append_eq_append_take, List.take_of_length_le (le_of_lt hlt)]
    obtain ⟨k, hk⟩ : ∃ k, max_retries - pre.length = k + 1 := ⟨max_retries - pre.length - 1, by omega⟩
    rw [hk, List.take_succ_cons, dlLoop_pre pre _ 0 h]
    simp [dlLoop]
  · intro pre post max_retries h hlt
    unfold download_with_retry
    rw [List.take_append_eq_append_take, List.take_of_length_le (le_of_lt hlt)]
    obtain ⟨k, hk⟩ : ∃ k, max_retries - pre.length = k + 1 := ⟨max_retries - pre.length - 1, by omega⟩
    rw [hk, List.take_succ_cons, dlLoop_pre pre _ 0 h]
    simp [dlLoop]
  · intro pre post max_retries h hlt
    unfold upload_with_retry
    rw [List.take_append_eq_append_take, List.take_of_length_le (le_of_lt hlt)]
    obtain ⟨k, hk⟩ : ∃ k, max_retries - pre.length = k + 1 := ⟨max_retries - pre.length - 1, by omega⟩
    rw [hk, List.take_succ_cons, upLoop_pre pre _ 0 h]
    simp [upLoop]
  · intro outs max_retries h hle
    unfold upload_with_retry
    rw [upLoop_all_fail _ 0 (fun o ho => h o (List.mem_of_mem_take ho))]
    simp [List.length_take, Nat.min_eq_left hle]

theorem retry_wrapper_behavior_witness :
    ((1 : Nat) < 3
      ∧ ∀ o ∈ ([.otherFailure] : List TransferOutcome), o = TransferOutcome.otherFailure)
    ∧ download_with_retry [.otherFailure, .checksumMismatch, .success] 3 = .checksumError 2
    ∧ download_with_retry [.otherFailure, .success] 3 = .ok 2
    ∧ upload_with_retry [.checksumMismatch, .success] 3 = .ok 2
    ∧ upload_with_retry [.otherFailure, .checksumMismatch, .otherFailure] 3 =
        .transferError 3 :=
  ⟨⟨by decide, by decide⟩,
   retry_wrapper_behavior.1 [.otherFailure] [.success] 3 (by decide) (by decide),
   retry_wrapper_behavior.2.1 [.otherFailure] [] 3 (by decide) (by decide),
   retry_wrapper_behavior.2.2.1 [.checksumMismatch] [] 3 (by decide) (by decide),
   retry_wrapper_behavior.2.2.2 [.otherFailure, .checksumMismatch, .otherFailure] 3
     (by decide) (by decide)⟩

end FileHarbor
